import Mathlib

/-!
Verification of the MathScan mobile application's scan-processing pipeline
and persisted scan history.

The development shallowly embeds the two provider implementations:
  * `MathScan.V1` — `src/providers/MathScanProvider.tsx` (fetch-based AI call,
    regex extraction of the JSON array from a free-text completion);
  * `MathScan.V2` — the newer provider (`src/unnamed/part_002`, retry loop,
    primary + backup storage keys, structured `generateObject` call).

External effects (the HTTP fetch, the AI service, `AsyncStorage`, timers)
are modelled by explicit oracle records; `JSON.stringify` / `JSON.parse`
are modelled by an executable renderer and parser over a JSON value type,
proved to round-trip on rendered output.
-/

namespace MathScan

/-! ## JavaScript string helpers (on `List Char`) -/

/-- `startsWithChars pat cs` is true when `pat` is a prefix of `cs`
(used to model `String.prototype.startsWith`). -/
def startsWithChars : List Char → List Char → Bool
  | [], _ => true
  | p :: ps, c :: rest => p == c && startsWithChars ps rest
  | _ :: _, [] => false

/-- `subOfChars pat cs` is true when `pat` occurs contiguously in `cs`
(used to model `String.prototype.includes`). -/
def subOfChars : List Char → List Char → Bool
  | pat, [] => pat.isEmpty
  | pat, c :: rest => startsWithChars pat (c :: rest) || subOfChars pat rest

/-- Model of the JS `haystack.includes(needle)` test. -/
def jsIncludes (haystack needle : String) : Bool :=
  subOfChars needle.data haystack.data

/-- Model of the JS test `s.trim() === ''` (every character is whitespace). -/
def isBlank (s : String) : Bool :=
  s.data.all fun c => c == ' ' || c == '\t' || c == '\n' || c == '\r'

/-- The `{` character, written via its code point. -/
def lbrace : Char := Char.ofNat 123

/-- The `}` character, written via its code point. -/
def rbrace : Char := Char.ofNat 125

/-! ## Data model (from the TypeScript interfaces) -/

/-- `ProblemType` from both providers: `'arithmetic' | 'algebra' | 'geometry' | 'other'`. -/
inductive ProblemType where
  | arithmetic
  | algebra
  | geometry
  | other
deriving DecidableEq, Repr

/-- `MathProblem` interface. Optional TS fields become `Option`; the JS
`number` fields are only stored and counted by the app, never computed
with, so they are modelled as `Int`. -/
structure MathProblem where
  problemText : String
  userAnswer : Option String
  correctAnswer : Option String
  isCorrect : Bool
  explanation : Option String
  problemType : Option ProblemType
  steps : Option (List String)
  confidence : Option Int
  qualityIssues : Option (List String)
deriving DecidableEq, Repr

/-- The inline `imageQuality` object type of a `Scan`. -/
structure ImageQuality where
  score : Int
  issues : List String
deriving DecidableEq, Repr

/-- `Scan` interface. -/
structure Scan where
  id : String
  timestamp : Int
  imageUri : String
  problems : List MathProblem
  imageQuality : Option ImageQuality
deriving DecidableEq, Repr

/-- `Stats` interface. -/
structure Stats where
  totalScans : Nat
  totalProblems : Nat
  correctAnswers : Nat
deriving DecidableEq, Repr

/-! ## JSON values, rendering and parsing

`JSON.stringify` / `JSON.parse` of the host platform are modelled by an
executable renderer and recursive-descent parser over a JSON value type.
The renderer follows `JSON.stringify`: object keys in property order,
fields holding `undefined` omitted, strings quoted with `"` and `\`
escaped.  (Control-character escapes are not modelled; this affects
neither injectivity nor the round-trip.) -/

/-- JSON value type (numbers restricted to integers, which is all the
scan data model produces). -/
inductive Json where
  | null
  | bool (b : Bool)
  | num (n : Int)
  | str (s : String)
  | arr (elems : List Json)
  | obj (fields : List (String × Json))
deriving Repr

/-- Character for a decimal digit value. -/
def digitToChar (d : Nat) : Char := Char.ofNat (48 + d)

/-- Decimal digit value of a character (as used by the number parser). -/
def charToDigit (c : Char) : Nat := c.toNat - 48

/-- Is `c` a decimal digit? -/
def isDigitC (c : Char) : Bool := 48 ≤ c.toNat && c.toNat ≤ 57

/-- Decimal rendering of a natural number, most significant digit first. -/
def renderNat (n : Nat) : List Char :=
  if n = 0 then ['0'] else ((Nat.digits 10 n).reverse.map digitToChar)

/-- Decimal rendering of an integer. -/
def renderInt (i : Int) : List Char :=
  if i < 0 then '-' :: renderNat i.natAbs else renderNat i.natAbs

/-- Rendering of a natural number as a Lean string. -/
def natToStr (n : Nat) : String := String.mk (renderNat n)

/-- JSON string escaping of one character (quote and backslash). -/
def escapeChar (c : Char) : List Char :=
  if c = '"' || c = '\\' then ['\\', c] else [c]

/-- JSON string escaping of a character list. -/
def escapeChars (cs : List Char) : List Char :=
  cs.foldr (fun c acc => escapeChar c ++ acc) []

/-- Rendering of a JSON string literal, including the quotes. -/
def renderStr (s : String) : List Char :=
  '"' :: escapeChars s.data ++ ['"']

mutual

/-- Rendering of a JSON value, as `JSON.stringify` lays it out
(no added whitespace). -/
def render : Json → List Char
  | .null => ("null" : String).data
  | .bool true => ("true" : String).data
  | .bool false => ("false" : String).data
  | .num i => renderInt i
  | .str s => renderStr s
  | .arr xs => '[' :: renderArr xs ++ [']']
  | .obj fs => lbrace :: renderObj fs ++ [rbrace]

/-- Comma-separated rendering of array elements. -/
def renderArr : List Json → List Char
  | [] => []
  | [x] => render x
  | x :: y :: xs => render x ++ ',' :: renderArr (y :: xs)

/-- Comma-separated rendering of object fields. -/
def renderObj : List (String × Json) → List Char
  | [] => []
  | [(k, v)] => renderStr k ++ ':' :: render v
  | (k, v) :: f :: fs => renderStr k ++ ':' :: render v ++ ',' :: renderObj (f :: fs)

end

/-- Parses the body of a JSON string literal (after the opening quote),
returning the unescaped characters and the input following the closing
quote. -/
def parseStrBody : List Char → Option (List Char × List Char)
  | [] => none
  | c :: rest =>
    if c = '"' then some ([], rest)
    else if c = '\\' then
      match rest with
      | [] => none
      | c2 :: rest2 => (parseStrBody rest2).map fun p => (c2 :: p.1, p.2)
    else (parseStrBody rest).map fun p => (c :: p.1, p.2)

/-- Is the first character of the input (if any) not a decimal digit?
Number parsing is maximal-munch, so the round-trip lemmas require the
trailing input not to start with a digit. -/
def headNotDigit : List Char → Bool
  | [] => true
  | c :: _ => !isDigitC c

/-- Parses a maximal nonempty run of decimal digits into a natural number. -/
def parseNatChars (cs : List Char) : Option (Nat × List Char) :=
  let ds := cs.takeWhile isDigitC
  if ds.isEmpty then none
  else some (Nat.ofDigits 10 (ds.map charToDigit).reverse, cs.dropWhile isDigitC)

mutual

/-- Fuel-indexed recursive-descent parser for JSON values. -/
def parseVal : Nat → List Char → Option (Json × List Char)
  | 0, _ => none
  | fuel + 1, cs =>
    match cs with
    | [] => none
    | c :: rest =>
      if c = 'n' then
        if startsWithChars ['u', 'l', 'l'] rest then some (.null, rest.drop 3) else none
      else if c = 't' then
        if startsWithChars ['r', 'u', 'e'] rest then some (.bool true, rest.drop 3) else none
      else if c = 'f' then
        if startsWithChars ['a', 'l', 's', 'e'] rest then some (.bool false, rest.drop 4) else none
      else if c = '"' then
        (parseStrBody rest).map fun p => (.str (String.mk p.1), p.2)
      else if c = '[' then
        (parseElems fuel rest).map fun p => (.arr p.1, p.2)
      else if c = lbrace then
        (parseFields fuel rest).map fun p => (.obj p.1, p.2)
      else if c = '-' then
        (parseNatChars rest).map fun p => (.num (-(p.1 : Int)), p.2)
      else if isDigitC c then
        (parseNatChars (c :: rest)).map fun p => (.num ((p.1 : Nat) : Int), p.2)
      else none

/-- Fuel-indexed parser for the elements of a JSON array (after `[`). -/
def parseElems : Nat → List Char → Option (List Json × List Char)
  | 0, _ => none
  | fuel + 1, cs =>
    match cs with
    | [] => none
    | c :: rest =>
      if c = ']' then some ([], rest)
      else
        match parseVal fuel (c :: rest) with
        | none => none
        | some (x, r) =>
          match r with
          | [] => none
          | c2 :: r2 =>
            if c2 = ',' then (parseElems fuel r2).map fun p => (x :: p.1, p.2)
            else if c2 = ']' then some ([x], r2)
            else none

/-- Fuel-indexed parser for the fields of a JSON object (after `{`). -/
def parseFields : Nat → List Char → Option (List (String × Json) × List Char)
  | 0, _ => none
  | fuel + 1, cs =>
    match cs with
    | [] => none
    | c :: rest =>
      if c = rbrace then some ([], rest)
      else if c = '"' then
        match parseStrBody rest with
        | none => none
        | some (k, r1) =>
          match r1 with
          | [] => none
          | c1 :: r2 =>
            if c1 = ':' then
              match parseVal fuel r2 with
              | none => none
              | some (v, r3) =>
                match r3 with
                | [] => none
                | c2 :: r4 =>
                  if c2 = ',' then
                    (parseFields fuel r4).map fun p => ((String.mk k, v) :: p.1, p.2)
                  else if c2 = rbrace then some ([(String.mk k, v)], r4)
                  else none
            else none
      else none

end

mutual

/-- Fuel weight of a JSON value: an upper bound on the parser fuel its
rendering consumes. -/
def jw : Json → Nat
  | .null => 1
  | .bool _ => 1
  | .num _ => 1
  | .str _ => 1
  | .arr xs => 1 + jwA xs
  | .obj fs => 1 + jwO fs

/-- Fuel weight of a list of array elements. -/
def jwA : List Json → Nat
  | [] => 1
  | x :: xs => 1 + jw x + jwA xs

/-- Fuel weight of a list of object fields. -/
def jwO : List (String × Json) → Nat
  | [] => 1
  | f :: fs => 1 + jw f.2 + jwO fs

end

/-- Top-level model of `JSON.parse`: parse with ample fuel and require the
whole input to be consumed. -/
def parseJsonStr (s : String) : Option Json :=
  match parseVal (2 * s.data.length + 2) s.data with
  | some (j, []) => some j
  | _ => none

/-! ## Round-trip of the JSON renderer and parser -/

theorem charToDigit_digitToChar {d : Nat} (h : d < 10) :
    charToDigit (digitToChar d) = d := by
  interval_cases d <;> rfl

theorem isDigitC_digitToChar {d : Nat} (h : d < 10) :
    isDigitC (digitToChar d) = true := by
  interval_cases d <;> rfl

theorem renderNat_all_digits (n : Nat) : ∀ c ∈ renderNat n, isDigitC c = true := by
  intro c hc
  unfold renderNat at hc
  split at hc
  · simp only [List.mem_singleton] at hc
    subst hc; rfl
  · simp only [List.mem_map, List.mem_reverse] at hc
    obtain ⟨d, hd, rfl⟩ := hc
    exact isDigitC_digitToChar (Nat.digits_lt_base (by norm_num) hd)

theorem renderNat_ne_nil (n : Nat) : renderNat n ≠ [] := by
  unfold renderNat
  split
  · simp
  · simp [Nat.digits_ne_nil_iff_ne_zero, *]

theorem renderNat_head_digit {n : Nat} {c : Char} {t : List Char}
    (h : renderNat n = c :: t) : isDigitC c = true :=
  renderNat_all_digits n c (h ▸ List.mem_cons_self c t)

theorem takeWhile_append_all {p : Char → Bool} :
    ∀ (l r : List Char), (∀ c ∈ l, p c = true) →
      (∀ c t, r = c :: t → p c = false) →
      (l ++ r).takeWhile p = l ∧ (l ++ r).dropWhile p = r := by
  intro l
  induction l with
  | nil =>
    intro r _ hr
    cases r with
    | nil => simp [List.takeWhile, List.dropWhile]
    | cons c t =>
      simp [List.takeWhile, List.dropWhile, hr c t rfl]
  | cons a l ih =>
    intro r hl hr
    have ha : p a = true := hl a (List.mem_cons_self a l)
    have := ih r (fun c hc => hl c (List.mem_cons_of_mem a hc)) hr
    simp [List.takeWhile, List.dropWhile, ha, this.1, this.2]

theorem parseNatChars_renderNat (n : Nat) (rest : List Char)
    (hr : headNotDigit rest = true) :
    parseNatChars (renderNat n ++ rest) = some (n, rest) := by
  have hrest : ∀ c t, rest = c :: t → isDigitC c = false := by
    intro c t hct
    subst hct
    simpa [headNotDigit] using hr
  obtain ⟨htake, hdrop⟩ :=
    takeWhile_append_all (renderNat n) rest (renderNat_all_digits n) hrest
  unfold parseNatChars
  rw [htake, hdrop]
  rw [if_neg (by simpa [List.isEmpty_iff] using renderNat_ne_nil n)]
  congr 1
  refine Prod.ext ?_ rfl
  show Nat.ofDigits 10 ((renderNat n).map charToDigit).reverse = n
  unfold renderNat
  split
  · subst ‹n = 0›
    simp [Nat.ofDigits, charToDigit]
  · rw [List.map_map]
    have hmap : ((Nat.digits 10 n).reverse.map (charToDigit ∘ digitToChar)) =
        List.map id (Nat.digits 10 n).reverse :=
      List.map_congr_left fun d hd =>
        charToDigit_digitToChar (Nat.digits_lt_base (by norm_num) (List.mem_reverse.mp hd))
    rw [hmap, List.map_id, List.reverse_reverse, Nat.ofDigits_digits]

theorem renderInt_ne_nil (i : Int) : renderInt i ≠ [] := by
  unfold renderInt
  split
  · simp
  · exact renderNat_ne_nil _

theorem render_ne_nil (j : Json) : render j ≠ [] := by
  cases j with
  | null => simp [render]
  | bool b => cases b <;> simp [render]
  | num i =>
    show renderInt i ≠ []
    exact renderInt_ne_nil i
  | str s => simp [render, renderStr]
  | arr xs => simp [render]
  | obj fs => simp [render]

theorem render_head_ne_rbrk (j : Json) :
    ∀ c t, render j = c :: t → c ≠ ']' := by
  intro c t h hc
  subst hc
  cases j with
  | null => simp [render] at h
  | bool b => cases b <;> simp [render] at h
  | num i =>
    have h' : renderInt i = ']' :: t := h
    unfold renderInt at h'
    split at h'
    · simp at h'
    · have := renderNat_head_digit h'
      simp [isDigitC] at this
  | str s => simp [render, renderStr] at h
  | arr xs => simp [render] at h
  | obj fs =>
    have h' : lbrace :: renderObj fs ++ [rbrace] = ']' :: t := h
    simp only [List.cons_append, List.cons.injEq] at h'
    exact absurd h'.1 (by decide)

theorem parseStrBody_cons (c : Char) (rest : List Char) :
    parseStrBody (c :: rest) =
      if c = '"' then some ([], rest)
      else if c = '\\' then
        match rest with
        | [] => none
        | c2 :: rest2 => (parseStrBody rest2).map fun p => (c2 :: p.1, p.2)
      else (parseStrBody rest).map fun p => (c :: p.1, p.2) := by
  rw [parseStrBody.eq_def]

theorem parseStrBody_escape (s : List Char) :
    ∀ rest, parseStrBody (escapeChars s ++ '"' :: rest) = some (s, rest) := by
  induction s with
  | nil =>
    intro rest
    show parseStrBody ('"' :: rest) = _
    rw [parseStrBody_cons, if_pos rfl]
  | cons c s ih =>
    intro rest
    have hsh : escapeChars (c :: s) = escapeChar c ++ escapeChars s := rfl
    rw [hsh, List.append_assoc]
    by_cases hc : c = '"' ∨ c = '\\'
    · have he : escapeChar c = ['\\', c] := by
        unfold escapeChar
        rcases hc with rfl | rfl <;> rfl
      rw [he]
      show parseStrBody ('\\' :: c :: (escapeChars s ++ '"' :: rest)) = _
      rw [parseStrBody_cons, if_neg (by decide), if_pos rfl]
      show (parseStrBody (escapeChars s ++ '"' :: rest)).map (fun p => (c :: p.1, p.2)) =
        some (c :: s, rest)
      rw [ih rest]
      rfl
    · push_neg at hc
      have he : escapeChar c = [c] := by
        unfold escapeChar
        rw [if_neg]
        simp [hc.1, hc.2]
      rw [he]
      show parseStrBody (c :: (escapeChars s ++ '"' :: rest)) = _
      rw [parseStrBody_cons, if_neg hc.1, if_neg hc.2, ih rest]
      rfl

theorem mk_data (s : String) : String.mk s.data = s := rfl

/-! Head-specific unfolding equations for the parser. -/

theorem parseVal_null (fuel : Nat) (rest : List Char) :
    parseVal (fuel + 1) ('n' :: 'u' :: 'l' :: 'l' :: rest) = some (.null, rest) := rfl

theorem parseVal_true (fuel : Nat) (rest : List Char) :
    parseVal (fuel + 1) ('t' :: 'r' :: 'u' :: 'e' :: rest) = some (.bool true, rest) := rfl

theorem parseVal_false (fuel : Nat) (rest : List Char) :
    parseVal (fuel + 1) ('f' :: 'a' :: 'l' :: 's' :: 'e' :: rest) = some (.bool false, rest) := rfl

theorem parseVal_quote (fuel : Nat) (rest : List Char) :
    parseVal (fuel + 1) ('"' :: rest) =
      (parseStrBody rest).map fun p => (.str (String.mk p.1), p.2) := rfl

theorem parseVal_lbrk (fuel : Nat) (rest : List Char) :
    parseVal (fuel + 1) ('[' :: rest) =
      (parseElems fuel rest).map fun p => (.arr p.1, p.2) := rfl

theorem parseVal_lbrace (fuel : Nat) (rest : List Char) :
    parseVal (fuel + 1) (lbrace :: rest) =
      (parseFields fuel rest).map fun p => (.obj p.1, p.2) := rfl

theorem parseVal_minus (fuel : Nat) (rest : List Char) :
    parseVal (fuel + 1) ('-' :: rest) =
      (parseNatChars rest).map fun p => (.num (-(p.1 : Int)), p.2) := rfl

theorem parseVal_digit (fuel : Nat) {c : Char} (rest : List Char)
    (h : isDigitC c = true) :
    parseVal (fuel + 1) (c :: rest) =
      (parseNatChars (c :: rest)).map fun p => (.num ((p.1 : Nat) : Int), p.2) := by
  have hb : 48 ≤ c.toNat ∧ c.toNat ≤ 57 := by
    simpa [isDigitC, Bool.and_eq_true, decide_eq_true_eq] using h
  have hne : ∀ c' : Char, c'.toNat < 48 ∨ 57 < c'.toNat → ¬ c = c' := by
    intro c' hc' he
    subst he
    omega
  simp only [parseVal]
  rw [if_neg (hne 'n' (by right; decide)), if_neg (hne 't' (by right; decide)),
    if_neg (hne 'f' (by right; decide)), if_neg (hne '"' (by left; decide)),
    if_neg (hne '[' (by right; decide)), if_neg (hne lbrace (by right; decide)),
    if_neg (hne '-' (by left; decide)), if_pos h]

theorem parseElems_rbrk (fuel : Nat) (rest : List Char) :
    parseElems (fuel + 1) (']' :: rest) = some ([], rest) := rfl

theorem parseElems_not_rbrk (fuel : Nat) {c : Char} (rest : List Char) (h : ¬ c = ']') :
    parseElems (fuel + 1) (c :: rest) =
      match parseVal fuel (c :: rest) with
      | none => none
      | some (x, r) =>
        match r with
        | [] => none
        | c2 :: r2 =>
          if c2 = ',' then (parseElems fuel r2).map fun p => (x :: p.1, p.2)
          else if c2 = ']' then some ([x], r2)
          else none := by
  simp only [parseElems]
  rw [if_neg h]

theorem parseFields_rbrace (fuel : Nat) (rest : List Char) :
    parseFields (fuel + 1) (rbrace :: rest) = some ([], rest) := by
  simp only [parseFields]
  rw [if_true]

theorem parseFields_quote (fuel : Nat) (rest : List Char) :
    parseFields (fuel + 1) ('"' :: rest) =
      match parseStrBody rest with
      | none => none
      | some (k, r1) =>
        match r1 with
        | [] => none
        | c1 :: r2 =>
          if c1 = ':' then
            match parseVal fuel r2 with
            | none => none
            | some (v, r3) =>
              match r3 with
              | [] => none
              | c2 :: r4 =>
                if c2 = ',' then
                  (parseFields fuel r4).map fun p => ((String.mk k, v) :: p.1, p.2)
                else if c2 = rbrace then some ([(String.mk k, v)], r4)
                else none
          else none := by
  simp only [parseFields, if_true]
  exact if_neg (by decide)

theorem jw_pos (j : Json) : 1 ≤ jw j := by
  cases j <;> simp [jw]

theorem jwA_pos (xs : List Json) : 1 ≤ jwA xs := by
  cases xs with
  | nil => simp [jwA]
  | cons a t =>
    show 1 ≤ 1 + jw a + jwA t
    omega

theorem jwO_pos (fs : List (String × Json)) : 1 ≤ jwO fs := by
  cases fs with
  | nil => simp [jwO]
  | cons f t =>
    show 1 ≤ 1 + jw f.2 + jwO t
    omega

mutual

/-- Parsing a rendered JSON value (with enough fuel, and trailing input
not starting with a digit) recovers the value exactly. -/
theorem parse_render : ∀ (j : Json) (fuel : Nat) (rest : List Char),
    jw j < fuel → headNotDigit rest = true →
    parseVal fuel (render j ++ rest) = some (j, rest)
  | .null, fuel, rest, hf, _ => by
    obtain ⟨f, rfl⟩ : ∃ f, fuel = f + 1 := ⟨fuel - 1, by have := jw_pos .null; omega⟩
    exact parseVal_null f rest
  | .bool true, fuel, rest, hf, _ => by
    obtain ⟨f, rfl⟩ : ∃ f, fuel = f + 1 := ⟨fuel - 1, by have := jw_pos (.bool true); omega⟩
    exact parseVal_true f rest
  | .bool false, fuel, rest, hf, _ => by
    obtain ⟨f, rfl⟩ : ∃ f, fuel = f + 1 := ⟨fuel - 1, by have := jw_pos (.bool false); omega⟩
    exact parseVal_false f rest
  | .num i, fuel, rest, hf, hr => by
    obtain ⟨f, rfl⟩ : ∃ f, fuel = f + 1 := ⟨fuel - 1, by have := jw_pos (.num i); omega⟩
    show parseVal (f + 1) (renderInt i ++ rest) = some (.num i, rest)
    by_cases hi : i < 0
    · have hri : renderInt i = '-' :: renderNat i.natAbs := by
        unfold renderInt; rw [if_pos hi]
      rw [hri]
      show parseVal (f + 1) ('-' :: (renderNat i.natAbs ++ rest)) = _
      rw [parseVal_minus, parseNatChars_renderNat _ _ hr]
      show some (Json.num (-(i.natAbs : Int)), rest) = some (Json.num i, rest)
      have hv : -((i.natAbs : Int)) = i := by omega
      rw [hv]
    · have hri : renderInt i = renderNat i.natAbs := by
        unfold renderInt; rw [if_neg hi]
      obtain ⟨c, t, hct⟩ : ∃ c t, renderNat i.natAbs = c :: t := by
        rcases h : renderNat i.natAbs with _ | ⟨c, t⟩
        · exact absurd h (renderNat_ne_nil _)
        · exact ⟨c, t, rfl⟩
      have hd := renderNat_head_digit hct
      rw [hri, hct]
      show parseVal (f + 1) (c :: (t ++ rest)) = _
      rw [parseVal_digit f _ hd]
      have hback : (c :: (t ++ rest)) = renderNat i.natAbs ++ rest := by rw [hct]; rfl
      rw [hback, parseNatChars_renderNat _ _ hr]
      show some (Json.num ((i.natAbs : Int)), rest) = some (Json.num i, rest)
      have hv : ((i.natAbs : Int)) = i := by omega
      rw [hv]
  | .str s, fuel, rest, hf, _ => by
    obtain ⟨f, rfl⟩ : ∃ f, fuel = f + 1 := ⟨fuel - 1, by have := jw_pos (.str s); omega⟩
    have h1 : render (.str s) ++ rest = '"' :: (escapeChars s.data ++ '"' :: rest) := by
      show ('"' :: (escapeChars s.data ++ ['"'])) ++ rest = _
      simp [List.append_assoc]
    rw [h1, parseVal_quote, parseStrBody_escape]
    show some (Json.str (String.mk s.data), rest) = some (Json.str s, rest)
    rw [mk_data]
  | .arr xs, fuel, rest, hf, _ => by
    obtain ⟨f, rfl⟩ : ∃ f, fuel = f + 1 := ⟨fuel - 1, by have := jw_pos (.arr xs); omega⟩
    have h1 : render (.arr xs) ++ rest = '[' :: (renderArr xs ++ ']' :: rest) := by
      show ('[' :: renderArr xs ++ [']']) ++ rest = _
      simp [List.append_assoc]
    have hA : jwA xs < f := by
      have : jw (.arr xs) = 1 + jwA xs := rfl
      omega
    rw [h1, parseVal_lbrk, parse_renderA xs f rest hA]
    rfl
  | .obj fs, fuel, rest, hf, _ => by
    obtain ⟨f, rfl⟩ : ∃ f, fuel = f + 1 := ⟨fuel - 1, by have := jw_pos (.obj fs); omega⟩
    have h1 : render (.obj fs) ++ rest = lbrace :: (renderObj fs ++ rbrace :: rest) := by
      show (lbrace :: renderObj fs ++ [rbrace]) ++ rest = _
      simp [List.append_assoc]
    have hO : jwO fs < f := by
      have : jw (.obj fs) = 1 + jwO fs := rfl
      omega
    rw [h1, parseVal_lbrace, parse_renderO fs f rest hO]
    rfl

/-- Parsing rendered array elements followed by `]` recovers the element
list exactly. -/
theorem parse_renderA : ∀ (xs : List Json) (fuel : Nat) (rest : List Char),
    jwA xs < fuel →
    parseElems fuel (renderArr xs ++ ']' :: rest) = some (xs, rest)
  | [], fuel, rest, hf => by
    obtain ⟨f, rfl⟩ : ∃ f, fuel = f + 1 := ⟨fuel - 1, by have := jwA_pos ([] : List Json); omega⟩
    exact parseElems_rbrk f rest
  | [x], fuel, rest, hf => by
    obtain ⟨f, rfl⟩ : ∃ f, fuel = f + 1 := ⟨fuel - 1, by have := jwA_pos [x]; omega⟩
    obtain ⟨c, t, hct⟩ : ∃ c t, render x = c :: t := by
      rcases h : render x with _ | ⟨c, t⟩
      · exact absurd h (render_ne_nil _)
      · exact ⟨c, t, rfl⟩
    have hcne : ¬ c = ']' := render_head_ne_rbrk x c t hct
    have h1 : renderArr [x] ++ ']' :: rest = c :: (t ++ ']' :: rest) := by
      show render x ++ ']' :: rest = _
      rw [hct]; rfl
    rw [h1, parseElems_not_rbrk f _ hcne]
    have h2 : c :: (t ++ ']' :: rest) = render x ++ ']' :: rest := by rw [hct]; rfl
    have hx : jw x < f := by
      have : jwA [x] = 1 + jw x + 1 := rfl
      omega
    rw [h2, parse_render x f (']' :: rest) hx (by rfl)]
    show (if (']' : Char) = ',' then (parseElems f rest).map (fun p => (x :: p.1, p.2))
        else if (']' : Char) = ']' then some ([x], rest) else none) = some ([x], rest)
    rw [if_neg (by decide), if_pos rfl]
  | x :: y :: t, fuel, rest, hf => by
    obtain ⟨f, rfl⟩ : ∃ f, fuel = f + 1 := ⟨fuel - 1, by have := jwA_pos (x :: y :: t); omega⟩
    obtain ⟨c, tc, hct⟩ : ∃ c tc, render x = c :: tc := by
      rcases h : render x with _ | ⟨c, tc⟩
      · exact absurd h (render_ne_nil _)
      · exact ⟨c, tc, rfl⟩
    have hcne : ¬ c = ']' := render_head_ne_rbrk x c tc hct
    have h1 : renderArr (x :: y :: t) ++ ']' :: rest =
        c :: (tc ++ (',' :: (renderArr (y :: t) ++ ']' :: rest))) := by
      show (render x ++ ',' :: renderArr (y :: t)) ++ ']' :: rest = _
      rw [hct]
      simp [List.append_assoc]
    rw [h1, parseElems_not_rbrk f _ hcne]
    have h2 : c :: (tc ++ (',' :: (renderArr (y :: t) ++ ']' :: rest))) =
        render x ++ (',' :: (renderArr (y :: t) ++ ']' :: rest)) := by rw [hct]; rfl
    have hx : jw x < f := by
      have e1 : jwA (x :: y :: t) = 1 + jw x + jwA (y :: t) := rfl
      omega
    rw [h2, parse_render x f _ hx (by rfl)]
    show (if (',' : Char) = ',' then
          (parseElems f (renderArr (y :: t) ++ ']' :: rest)).map (fun p => (x :: p.1, p.2))
        else if (',' : Char) = ']' then some ([x], renderArr (y :: t) ++ ']' :: rest) else none) =
      some (x :: y :: t, rest)
    have hyt : jwA (y :: t) < f := by
      have e1 : jwA (x :: y :: t) = 1 + jw x + jwA (y :: t) := rfl
      omega
    rw [if_pos rfl, parse_renderA (y :: t) f rest hyt]
    rfl

/-- Parsing rendered object fields followed by `}` recovers the field
list exactly. -/
theorem parse_renderO : ∀ (fs : List (String × Json)) (fuel : Nat) (rest : List Char),
    jwO fs < fuel →
    parseFields fuel (renderObj fs ++ rbrace :: rest) = some (fs, rest)
  | [], fuel, rest, hf => by
    obtain ⟨f, rfl⟩ : ∃ f, fuel = f + 1 :=
      ⟨fuel - 1, by have := jwO_pos ([] : List (String × Json)); omega⟩
    exact parseFields_rbrace f rest
  | [(k, v)], fuel, rest, hf => by
    obtain ⟨f, rfl⟩ : ∃ f, fuel = f + 1 := ⟨fuel - 1, by have := jwO_pos [(k, v)]; omega⟩
    have h1 : renderObj [(k, v)] ++ rbrace :: rest =
        '"' :: (escapeChars k.data ++ '"' :: (':' :: (render v ++ rbrace :: rest))) := by
      show (renderStr k ++ ':' :: render v) ++ rbrace :: rest = _
      simp [renderStr, List.append_assoc]
    rw [h1, parseFields_quote, parseStrBody_escape]
    show (if (':' : Char) = ':' then
          match parseVal f (render v ++ rbrace :: rest) with
          | none => none
          | some (v', r3) =>
            match r3 with
            | [] => none
            | c2 :: r4 =>
              if c2 = ',' then
                (parseFields f r4).map fun p => ((String.mk k.data, v') :: p.1, p.2)
              else if c2 = rbrace then some ([(String.mk k.data, v')], r4)
              else none
        else none) = some ([(k, v)], rest)
    have hv : jw v < f := by
      have e1 : jwO [(k, v)] = 1 + jw v + 1 := rfl
      omega
    rw [if_pos rfl, parse_render v f (rbrace :: rest) hv (by rfl)]
    show (if rbrace = ',' then
          (parseFields f rest).map fun p => ((String.mk k.data, v) :: p.1, p.2)
        else if rbrace = rbrace then some ([(String.mk k.data, v)], rest) else none) =
      some ([(k, v)], rest)
    rw [if_neg (by decide), if_pos rfl, mk_data]
  | (k, v) :: g :: t, fuel, rest, hf => by
    obtain ⟨f, rfl⟩ : ∃ f, fuel = f + 1 :=
      ⟨fuel - 1, by have := jwO_pos ((k, v) :: g :: t); omega⟩
    have h1 : renderObj ((k, v) :: g :: t) ++ rbrace :: rest =
        '"' :: (escapeChars k.data ++ '"' ::
          (':' :: (render v ++ ',' :: (renderObj (g :: t) ++ rbrace :: rest)))) := by
      show (renderStr k ++ ':' :: render v ++ ',' :: renderObj (g :: t)) ++ rbrace :: rest = _
      simp [renderStr, List.append_assoc]
    rw [h1, parseFields_quote, parseStrBody_escape]
    show (if (':' : Char) = ':' then
          match parseVal f (render v ++ ',' :: (renderObj (g :: t) ++ rbrace :: rest)) with
          | none => none
          | some (v', r3) =>
            match r3 with
            | [] => none
            | c2 :: r4 =>
              if c2 = ',' then
                (parseFields f r4).map fun p => ((String.mk k.data, v') :: p.1, p.2)
              else if c2 = rbrace then some ([(String.mk k.data, v')], r4)
              else none
        else none) = some ((k, v) :: g :: t, rest)
    have hv : jw v < f := by
      have e1 : jwO ((k, v) :: g :: t) = 1 + jw v + jwO (g :: t) := rfl
      omega
    rw [if_pos rfl, parse_render v f _ hv (by rfl)]
    show (if (',' : Char) = ',' then
          (parseFields f (renderObj (g :: t) ++ rbrace :: rest)).map
            fun p => ((String.mk k.data, v) :: p.1, p.2)
        else if (',' : Char) = rbrace then
          some ([(String.mk k.data, v)], renderObj (g :: t) ++ rbrace :: rest)
        else none) = some ((k, v) :: g :: t, rest)
    have hgt : jwO (g :: t) < f := by
      have e1 : jwO ((k, v) :: g :: t) = 1 + jw v + jwO (g :: t) := rfl
      omega
    rw [if_pos rfl, parse_renderO (g :: t) f rest hgt, mk_data]
    rfl

end

mutual

/-- The weight of a value is within the fuel budget the top-level parser
allocates from the rendered length. -/
theorem jw_le_len : ∀ j : Json, jw j ≤ 2 * (render j).length
  | .null => by simp [render, jw]
  | .bool b => by cases b <;> simp [render, jw]
  | .num i => by
    have h : 1 ≤ (renderInt i).length := by
      rcases h' : renderInt i with _ | ⟨c, t⟩
      · exact absurd h' (renderInt_ne_nil i)
      · simp
    show 1 ≤ 2 * (renderInt i).length
    omega
  | .str s => by
    show 1 ≤ 2 * ('"' :: escapeChars s.data ++ ['"']).length
    simp only [List.cons_append, List.length_cons, List.length_append, List.length_singleton]
    omega
  | .arr xs => by
    have h := jwA_le_len xs
    show 1 + jwA xs ≤ 2 * ('[' :: renderArr xs ++ [']']).length
    simp only [List.cons_append, List.length_cons, List.length_append, List.length_singleton]
    omega
  | .obj fs => by
    have h := jwO_le_len fs
    show 1 + jwO fs ≤ 2 * (lbrace :: renderObj fs ++ [rbrace]).length
    simp only [List.cons_append, List.length_cons, List.length_append, List.length_singleton]
    omega

/-- Weight bound for rendered array elements. -/
theorem jwA_le_len : ∀ xs : List Json, jwA xs ≤ 2 * (renderArr xs).length + 2
  | [] => by simp [jwA, renderArr]
  | [x] => by
    have h := jw_le_len x
    show 1 + jw x + 1 ≤ 2 * (render x).length + 2
    omega
  | x :: y :: t => by
    have h1 := jw_le_len x
    have h2 := jwA_le_len (y :: t)
    show 1 + jw x + jwA (y :: t) ≤ 2 * (render x ++ ',' :: renderArr (y :: t)).length + 2
    simp only [List.length_append, List.length_cons]
    omega

/-- Weight bound for rendered object fields. -/
theorem jwO_le_len : ∀ fs : List (String × Json), jwO fs ≤ 2 * (renderObj fs).length + 2
  | [] => by simp [jwO, renderObj]
  | [(k, v)] => by
    have h := jw_le_len v
    show 1 + jw v + 1 ≤ 2 * (renderStr k ++ ':' :: render v).length + 2
    simp only [List.length_append, List.length_cons]
    omega
  | (k, v) :: g :: t => by
    have h1 := jw_le_len v
    have h2 := jwO_le_len (g :: t)
    show 1 + jw v + jwO (g :: t) ≤
      2 * (renderStr k ++ ':' :: render v ++ ',' :: renderObj (g :: t)).length + 2
    simp only [List.length_append, List.length_cons]
    omega

end

/-- `JSON.parse` recovers any rendered JSON value. -/
theorem parseJsonStr_render (j : Json) : parseJsonStr (String.mk (render j)) = some j := by
  unfold parseJsonStr
  show (match parseVal (2 * (render j).length + 2) (render j) with
    | some (j', []) => some j'
    | _ => none) = some j
  have h : parseVal (2 * (render j).length + 2) (render j ++ []) = some (j, []) :=
    parse_render j _ [] (by have := jw_le_len j; omega) rfl
  rw [List.append_nil] at h
  rw [h]

/-! ## Encoding and decoding of the scan history data model

`JSON.stringify` on a typed `Scan[]` value produces exactly the JSON
value computed by `encodeScans` (fields in property order, `undefined`
optional fields omitted); reading the parsed value back at the TS types
is `decodeScansJ`. -/

/-- An optional object field: omitted when the TS value is `undefined`. -/
def optField (k : String) : Option Json → List (String × Json)
  | none => []
  | some v => [(k, v)]

/-- First binding of key `k` in an object's field list. -/
def jGet : List (String × Json) → String → Option Json
  | [], _ => none
  | f :: fs, k => if f.1 = k then some f.2 else jGet fs k

/-- Encoding of a `ProblemType` enum value. -/
def encodePT : ProblemType → Json
  | .arithmetic => .str "arithmetic"
  | .algebra => .str "algebra"
  | .geometry => .str "geometry"
  | .other => .str "other"

/-- Decoding of a `ProblemType` enum value. -/
def decodePT : Json → Option ProblemType
  | .str "arithmetic" => some .arithmetic
  | .str "algebra" => some .algebra
  | .str "geometry" => some .geometry
  | .str "other" => some .other
  | _ => none

/-- Decoding of a JSON array of strings. -/
def decodeStrList : List Json → Option (List String)
  | [] => some []
  | .str s :: t => (decodeStrList t).map fun l => s :: l
  | _ => none

/-- A required string field. -/
def reqStr (fs : List (String × Json)) (k : String) : Option String :=
  match jGet fs k with
  | some (.str s) => some s
  | _ => none

/-- A required boolean field. -/
def reqBool (fs : List (String × Json)) (k : String) : Option Bool :=
  match jGet fs k with
  | some (.bool b) => some b
  | _ => none

/-- A required numeric field. -/
def reqInt (fs : List (String × Json)) (k : String) : Option Int :=
  match jGet fs k with
  | some (.num n) => some n
  | _ => none

/-- An optional string field (`none` when absent). -/
def optStr (fs : List (String × Json)) (k : String) : Option (Option String) :=
  match jGet fs k with
  | none => some none
  | some (.str s) => some (some s)
  | some _ => none

/-- An optional numeric field. -/
def optInt (fs : List (String × Json)) (k : String) : Option (Option Int) :=
  match jGet fs k with
  | none => some none
  | some (.num n) => some (some n)
  | some _ => none

/-- An optional `ProblemType` field. -/
def optPT (fs : List (String × Json)) (k : String) : Option (Option ProblemType) :=
  match jGet fs k with
  | none => some none
  | some v => (decodePT v).map some

/-- An optional string-array field. -/
def optStrList (fs : List (String × Json)) (k : String) : Option (Option (List String)) :=
  match jGet fs k with
  | none => some none
  | some (.arr xs) => (decodeStrList xs).map some
  | some _ => none

/-- The object fields of an encoded `MathProblem`, in property order,
with `undefined` optional fields omitted. -/
def probFields (p : MathProblem) : List (String × Json) :=
  ("problemText", .str p.problemText) ::
    (optField "userAnswer" (p.userAnswer.map .str) ++
      (optField "correctAnswer" (p.correctAnswer.map .str) ++
        (("isCorrect", .bool p.isCorrect) ::
          (optField "explanation" (p.explanation.map .str) ++
            (optField "problemType" (p.problemType.map encodePT) ++
              (optField "steps" (p.steps.map fun l => .arr (l.map .str)) ++
                (optField "confidence" (p.confidence.map .num) ++
                  optField "qualityIssues" (p.qualityIssues.map fun l => .arr (l.map .str)))))))))

/-- JSON encoding of a `MathProblem`. -/
def encodeProblem (p : MathProblem) : Json := .obj (probFields p)

/-- Reading a `MathProblem` back from a parsed JSON value. -/
def decodeProblem (j : Json) : Option MathProblem :=
  match j with
  | .obj fs => do
    let pt ← reqStr fs "problemText"
    let ua ← optStr fs "userAnswer"
    let ca ← optStr fs "correctAnswer"
    let ic ← reqBool fs "isCorrect"
    let ex ← optStr fs "explanation"
    let pty ← optPT fs "problemType"
    let st ← optStrList fs "steps"
    let cf ← optInt fs "confidence"
    let qi ← optStrList fs "qualityIssues"
    pure ⟨pt, ua, ca, ic, ex, pty, st, cf, qi⟩
  | _ => none

/-- JSON encoding of the inline `imageQuality` object. -/
def encodeQuality (q : ImageQuality) : Json :=
  .obj [("score", .num q.score), ("issues", .arr (q.issues.map .str))]

/-- Reading an `imageQuality` object back. -/
def decodeQuality (j : Json) : Option ImageQuality :=
  match j with
  | .obj fs => do
    let sc ← reqInt fs "score"
    let iss ← (match jGet fs "issues" with
      | some (.arr xs) => decodeStrList xs
      | _ => none)
    pure ⟨sc, iss⟩
  | _ => none

/-- Decoding of a JSON array of problems. -/
def decodeProblemList : List Json → Option (List MathProblem)
  | [] => some []
  | j :: t => do
    let p ← decodeProblem j
    let l ← decodeProblemList t
    pure (p :: l)

/-- The object fields of an encoded `Scan`, in property order. -/
def scanFields (s : Scan) : List (String × Json) :=
  ("id", .str s.id) :: ("timestamp", .num s.timestamp) :: ("imageUri", .str s.imageUri) ::
    ("problems", .arr (s.problems.map encodeProblem)) ::
      optField "imageQuality" (s.imageQuality.map encodeQuality)

/-- JSON encoding of a `Scan`. -/
def encodeScan (s : Scan) : Json := .obj (scanFields s)

/-- Reading a `Scan` back from a parsed JSON value. -/
def decodeScan (j : Json) : Option Scan :=
  match j with
  | .obj fs => do
    let i ← reqStr fs "id"
    let ts ← reqInt fs "timestamp"
    let uri ← reqStr fs "imageUri"
    let probs ← (match jGet fs "problems" with
      | some (.arr xs) => decodeProblemList xs
      | _ => none)
    let q ← (match jGet fs "imageQuality" with
      | none => some none
      | some v => (decodeQuality v).map some)
    pure ⟨i, ts, uri, probs, q⟩
  | _ => none

/-- Decoding of a JSON array of scans. -/
def decodeScanList : List Json → Option (List Scan)
  | [] => some []
  | j :: t => do
    let s ← decodeScan j
    let l ← decodeScanList t
    pure (s :: l)

/-- JSON encoding of a whole scan list (`JSON.stringify(newScans)` up to
the rendering). -/
def encodeScans (l : List Scan) : Json := .arr (l.map encodeScan)

/-- Reading a scan list back from a parsed JSON value; the code's
`Array.isArray` check corresponds to the `.arr` pattern. -/
def decodeScansJ : Json → Option (List Scan)
  | .arr xs => decodeScanList xs
  | _ => none

/-- Model of `JSON.stringify(newScans)` in `saveScans`. -/
def stringifyScans (l : List Scan) : String := String.mk (render (encodeScans l))

/-- Model of `JSON.parse(stored)` followed by reading the scans at their
TS types, as `loadScans` consumes the stored blob. -/
def parseScans (s : String) : Option (List Scan) :=
  (parseJsonStr s).bind decodeScansJ

theorem decodePT_encodePT (t : ProblemType) : decodePT (encodePT t) = some t := by
  cases t <;> rfl

theorem decodeStrList_map (l : List String) :
    decodeStrList (l.map .str) = some l := by
  induction l with
  | nil => rfl
  | cons s t ih => simp [decodeStrList, ih]

theorem jGet_cons_eq (k : String) (v : Json) (l : List (String × Json)) :
    jGet ((k, v) :: l) k = some v := by
  simp [jGet]

theorem jGet_cons_ne {a : String × Json} {k : String} (l : List (String × Json))
    (h : ¬ a.1 = k) : jGet (a :: l) k = jGet l k := by
  simp [jGet, h]

theorem jGet_optField_ne {k' k : String} (o : Option Json) (l : List (String × Json))
    (h : ¬ k' = k) : jGet (optField k' o ++ l) k = jGet l k := by
  cases o with
  | none => rfl
  | some v => exact jGet_cons_ne l h

theorem jGet_optField_self (k : String) (v : Json) (l : List (String × Json)) :
    jGet (optField k (some v) ++ l) k = some v := jGet_cons_eq k v l

theorem jGet_optField_none (k : String) (l : List (String × Json)) :
    jGet (optField k none ++ l) k = jGet l k := rfl

theorem jGet_optField_only_ne {k' k : String} (o : Option Json) (h : ¬ k' = k) :
    jGet (optField k' o) k = none := by
  cases o with
  | none => rfl
  | some v => simp [optField, jGet, h]

theorem jGet_optField_only_self (k : String) (v : Json) :
    jGet (optField k (some v)) k = some v := by
  simp [optField, jGet]

theorem jGet_optField_only_none (k : String) : jGet (optField k none) k = none := rfl

theorem probFields_get_problemText (p : MathProblem) :
    jGet (probFields p) "problemText" = some (.str p.problemText) := by
  simp only [probFields]
  exact jGet_cons_eq _ _ _

theorem probFields_get_userAnswer (p : MathProblem) :
    jGet (probFields p) "userAnswer" = p.userAnswer.map Json.str := by
  simp only [probFields]
  rw [jGet_cons_ne _ (by simp)]
  cases p.userAnswer with
  | none =>
    simp only [Option.map_none']
    rw [jGet_optField_none, jGet_optField_ne _ _ (by decide), jGet_cons_ne _ (by simp),
      jGet_optField_ne _ _ (by decide), jGet_optField_ne _ _ (by decide),
      jGet_optField_ne _ _ (by decide), jGet_optField_ne _ _ (by decide),
      jGet_optField_only_ne _ (by decide)]
  | some a =>
    simp only [Option.map_some']
    rw [jGet_optField_self]

theorem probFields_get_correctAnswer (p : MathProblem) :
    jGet (probFields p) "correctAnswer" = p.correctAnswer.map Json.str := by
  simp only [probFields]
  rw [jGet_cons_ne _ (by simp), jGet_optField_ne _ _ (by decide)]
  cases p.correctAnswer with
  | none =>
    simp only [Option.map_none']
    rw [jGet_optField_none, jGet_cons_ne _ (by simp), jGet_optField_ne _ _ (by decide),
      jGet_optField_ne _ _ (by decide), jGet_optField_ne _ _ (by decide),
      jGet_optField_ne _ _ (by decide), jGet_optField_only_ne _ (by decide)]
  | some a =>
    simp only [Option.map_some']
    rw [jGet_optField_self]

theorem probFields_get_isCorrect (p : MathProblem) :
    jGet (probFields p) "isCorrect" = some (.bool p.isCorrect) := by
  simp only [probFields]
  rw [jGet_cons_ne _ (by simp), jGet_optField_ne _ _ (by decide),
    jGet_optField_ne _ _ (by decide)]
  exact jGet_cons_eq _ _ _

theorem probFields_get_explanation (p : MathProblem) :
    jGet (probFields p) "explanation" = p.explanation.map Json.str := by
  simp only [probFields]
  rw [jGet_cons_ne _ (by simp), jGet_optField_ne _ _ (by decide),
    jGet_optField_ne _ _ (by decide), jGet_cons_ne _ (by simp)]
  cases p.explanation with
  | none =>
    simp only [Option.map_none']
    rw [jGet_optField_none, jGet_optField_ne _ _ (by decide),
      jGet_optField_ne _ _ (by decide), jGet_optField_ne _ _ (by decide),
      jGet_optField_only_ne _ (by decide)]
  | some a =>
    simp only [Option.map_some']
    rw [jGet_optField_self]

theorem probFields_get_problemType (p : MathProblem) :
    jGet (probFields p) "problemType" = p.problemType.map encodePT := by
  simp only [probFields]
  rw [jGet_cons_ne _ (by simp), jGet_optField_ne _ _ (by decide),
    jGet_optField_ne _ _ (by decide), jGet_cons_ne _ (by simp),
    jGet_optField_ne _ _ (by decide)]
  cases p.problemType with
  | none =>
    simp only [Option.map_none']
    rw [jGet_optField_none, jGet_optField_ne _ _ (by decide),
      jGet_optField_ne _ _ (by decide), jGet_optField_only_ne _ (by decide)]
  | some t =>
    simp only [Option.map_some']
    rw [jGet_optField_self]

theorem probFields_get_steps (p : MathProblem) :
    jGet (probFields p) "steps" = p.steps.map fun l => Json.arr (l.map .str) := by
  simp only [probFields]
  rw [jGet_cons_ne _ (by simp), jGet_optField_ne _ _ (by decide),
    jGet_optField_ne _ _ (by decide), jGet_cons_ne _ (by simp),
    jGet_optField_ne _ _ (by decide), jGet_optField_ne _ _ (by decide)]
  cases p.steps with
  | none =>
    simp only [Option.map_none']
    rw [jGet_optField_none, jGet_optField_ne _ _ (by decide),
      jGet_optField_only_ne _ (by decide)]
  | some l =>
    simp only [Option.map_some']
    rw [jGet_optField_self]

theorem probFields_get_confidence (p : MathProblem) :
    jGet (probFields p) "confidence" = p.confidence.map Json.num := by
  simp only [probFields]
  rw [jGet_cons_ne _ (by simp), jGet_optField_ne _ _ (by decide),
    jGet_optField_ne _ _ (by decide), jGet_cons_ne _ (by simp),
    jGet_optField_ne _ _ (by decide), jGet_optField_ne _ _ (by decide),
    jGet_optField_ne _ _ (by decide)]
  cases p.confidence with
  | none =>
    simp only [Option.map_none']
    rw [jGet_optField_none, jGet_optField_only_ne _ (by decide)]
  | some n =>
    simp only [Option.map_some']
    rw [jGet_optField_self]

theorem probFields_get_qualityIssues (p : MathProblem) :
    jGet (probFields p) "qualityIssues" = p.qualityIssues.map fun l => Json.arr (l.map .str) := by
  simp only [probFields]
  rw [jGet_cons_ne _ (by simp), jGet_optField_ne _ _ (by decide),
    jGet_optField_ne _ _ (by decide), jGet_cons_ne _ (by simp),
    jGet_optField_ne _ _ (by decide), jGet_optField_ne _ _ (by decide),
    jGet_optField_ne _ _ (by decide), jGet_optField_ne _ _ (by decide)]
  cases p.qualityIssues with
  | none =>
    simp only [Option.map_none']
    exact jGet_optField_only_none _
  | some l =>
    simp only [Option.map_some']
    exact jGet_optField_only_self _ _

theorem pf_problemText (p : MathProblem) :
    reqStr (probFields p) "problemText" = some p.problemText := by
  unfold reqStr
  rw [probFields_get_problemText]

theorem pf_userAnswer (p : MathProblem) :
    optStr (probFields p) "userAnswer" = some p.userAnswer := by
  unfold optStr
  rw [probFields_get_userAnswer]
  cases p.userAnswer <;> rfl

theorem pf_correctAnswer (p : MathProblem) :
    optStr (probFields p) "correctAnswer" = some p.correctAnswer := by
  unfold optStr
  rw [probFields_get_correctAnswer]
  cases p.correctAnswer <;> rfl

theorem pf_isCorrect (p : MathProblem) :
    reqBool (probFields p) "isCorrect" = some p.isCorrect := by
  unfold reqBool
  rw [probFields_get_isCorrect]

theorem pf_explanation (p : MathProblem) :
    optStr (probFields p) "explanation" = some p.explanation := by
  unfold optStr
  rw [probFields_get_explanation]
  cases p.explanation <;> rfl

theorem pf_problemType (p : MathProblem) :
    optPT (probFields p) "problemType" = some p.problemType := by
  unfold optPT
  rw [probFields_get_problemType]
  cases p.problemType with
  | none => rfl
  | some t => simp [decodePT_encodePT]

theorem pf_steps (p : MathProblem) :
    optStrList (probFields p) "steps" = some p.steps := by
  unfold optStrList
  rw [probFields_get_steps]
  cases p.steps with
  | none => rfl
  | some l => simp [decodeStrList_map]

theorem pf_confidence (p : MathProblem) :
    optInt (probFields p) "confidence" = some p.confidence := by
  unfold optInt
  rw [probFields_get_confidence]
  cases p.confidence <;> rfl

theorem pf_qualityIssues (p : MathProblem) :
    optStrList (probFields p) "qualityIssues" = some p.qualityIssues := by
  unfold optStrList
  rw [probFields_get_qualityIssues]
  cases p.qualityIssues with
  | none => rfl
  | some l => simp [decodeStrList_map]

theorem decodeProblem_encodeProblem (p : MathProblem) :
    decodeProblem (encodeProblem p) = some p := by
  show decodeProblem (.obj (probFields p)) = some p
  simp only [decodeProblem, pf_problemText, pf_userAnswer, pf_correctAnswer, pf_isCorrect,
    pf_explanation, pf_problemType, pf_steps, pf_confidence, pf_qualityIssues,
    Option.bind_some]
  rfl

theorem decodeQuality_encodeQuality (q : ImageQuality) :
    decodeQuality (encodeQuality q) = some q := by
  obtain ⟨sc, iss⟩ := q
  simp [encodeQuality, decodeQuality, jGet, reqInt, decodeStrList_map]

theorem decodeProblemList_map (l : List MathProblem) :
    decodeProblemList (l.map encodeProblem) = some l := by
  induction l with
  | nil => rfl
  | cons p t ih => simp [decodeProblemList, decodeProblem_encodeProblem, ih]

theorem decodeScan_encodeScan (s : Scan) : decodeScan (encodeScan s) = some s := by
  obtain ⟨i, ts, uri, probs, q⟩ := s
  cases q <;>
    simp [encodeScan, scanFields, decodeScan, optField, jGet, reqStr, reqInt,
      decodeProblemList_map, decodeQuality_encodeQuality]

theorem decodeScanList_map (l : List Scan) :
    decodeScanList (l.map encodeScan) = some l := by
  induction l with
  | nil => rfl
  | cons s t ih => simp [decodeScanList, decodeScan_encodeScan, ih]

/-- The persisted history round-trips: parsing the stringified scan list
recovers it exactly. -/
theorem parseScans_stringifyScans (l : List Scan) :
    parseScans (stringifyScans l) = some l := by
  unfold parseScans stringifyScans
  rw [parseJsonStr_render]
  show decodeScansJ (encodeScans l) = some l
  show decodeScanList (l.map encodeScan) = some l
  exact decodeScanList_map l

/-! ## Storage model and the newer provider (`src/unnamed/part_002`) -/

/-- `STORAGE_KEY` constant. -/
def STORAGE_KEY : String := "mathscan_history"

/-- `STORAGE_BACKUP_KEY` constant. -/
def STORAGE_BACKUP_KEY : String := "mathscan_history_backup"

/-- `MAX_RETRIES` constant. -/
def MAX_RETRIES : Nat := 3

/-- `RETRY_DELAY` constant (milliseconds). -/
def RETRY_DELAY : Nat := 1500

/-- The two `AsyncStorage` cells the provider uses: the values stored
under `STORAGE_KEY` and `STORAGE_BACKUP_KEY` (`none` = no value, as
`getItem` returning `null`). -/
structure Storage where
  primary : Option String
  backup : Option String
deriving DecidableEq, Repr

namespace V2

/-- `saveScans` (part_002 lines 65-91): stringify, skip the write when the
payload is falsy or the literal `'null'`, otherwise write the same string
under both keys and set the in-memory list.  The surrounding retry loop
only matters when `AsyncStorage` itself throws, which the pure model does
not; this is the successful-completion behaviour. -/
def saveScans (st : Storage) (mem : List Scan) (newScans : List Scan) : Storage × List Scan :=
  let dataToSave := stringifyScans newScans
  if dataToSave = "" ∨ dataToSave = "null" then (st, mem)
  else ({ primary := some dataToSave, backup := some dataToSave }, newScans)

/-- The storage read of `loadScans`: the primary key, falling back to the
backup key when the primary read is falsy (`null` or the empty string). -/
def loadRead (st : Storage) : Option String :=
  match st.primary with
  | none => st.backup
  | some s => if s = "" then st.backup else some s

/-- `loadScans` (part_002 lines 93-160): read (with backup fallback),
guard against falsy / `'null'` / `'undefined'` payloads, JSON-parse and
require an array, and fall back to the empty list on any failure (the
web and native branches of the source are identical in effect; a parse
exception ends, after the retries, in `setScans([])`  as well).  Stored
values that parse to an array whose elements are not scan-shaped are
modelled as a failed load. -/
def loadScans (st : Storage) : List Scan :=
  match loadRead st with
  | none => []
  | some stored =>
    if stored = "" ∨ stored = "null" ∨ stored = "undefined" then []
    else
      match parseScans stored with
      | some l => l
      | none => []

/-- `getScanById` (part_002 lines 183-185). -/
def getScanById (scans : List Scan) (id : String) : Option Scan :=
  scans.find? fun scan => scan.id == id

/-- The list transformation of `deleteScan` (part_002 line 190). -/
def deleteScanList (scans : List Scan) (id : String) : List Scan :=
  scans.filter fun scan => scan.id != id

/-- `deleteScan` (part_002 lines 187-197): filter, then persist via
`saveScans`. -/
def deleteScan (st : Storage) (mem : List Scan) (id : String) : Storage × List Scan :=
  saveScans st mem (deleteScanList mem id)

/-- `clearAllScans` (part_002 lines 199-211): remove both keys and clear
the in-memory list. -/
def clearAllScans (_st : Storage) (_mem : List Scan) : Storage × List Scan :=
  ({ primary := none, backup := none }, [])

/-- The stats effect (part_002 lines 172-181): recompute the three
counters from the current scan list. -/
def computeStats (scans : List Scan) : Stats :=
  { totalScans := scans.length
    totalProblems := scans.foldl (fun acc scan => acc + scan.problems.length) 0
    correctAnswers :=
      scans.foldl (fun acc scan => acc + (scan.problems.filter fun p => p.isCorrect).length) 0 }

/-! ### The scan-processing pipeline of the newer provider -/

/-- One element of the `generateObject` response's `problems` array (the
zod schema of part_002 lines 366-376). -/
structure AIProblem where
  problemText : String
  userAnswer : Option String
  correctAnswer : Option String
  isCorrect : Bool
  explanation : Option String
  problemType : Option ProblemType
  steps : Option (List String)
  confidence : Option Int
  qualityIssues : Option (List String)
deriving DecidableEq, Repr

/-- The response-to-`MathProblem` mapping (part_002 lines 442-452):
every field is passed through; `steps` and `qualityIssues` get `|| []`
defaults. -/
def toMathProblem (p : AIProblem) : MathProblem :=
  { problemText := p.problemText
    userAnswer := p.userAnswer
    correctAnswer := p.correctAnswer
    isCorrect := p.isCorrect
    explanation := p.explanation
    problemType := p.problemType
    steps := some (p.steps.getD [])
    confidence := p.confidence
    qualityIssues := some (p.qualityIssues.getD []) }

/-- Does an async operation, settling after `d` milliseconds (`none` =
never settles), lose against a timer of `limit` milliseconds? -/
def timedOut (d : Option Nat) (limit : Nat) : Bool :=
  match d with
  | none => true
  | some t => limit ≤ t

/-- Outcome of the `FileReader` used on the fetched blob. -/
inductive ReaderOutcome where
  | success (dataUrl : String)
  | emptyResult
  | readError
deriving DecidableEq, Repr

/-- Outcome of the `fetch(uri)` call (when it settles). -/
inductive FetchOutcome where
  | netError (msg : String)
  | reply (ok : Bool) (status : Nat) (blobSize : Nat)
deriving DecidableEq, Repr

/-- Oracle for one `convertImageToBase64` execution. -/
structure FetchEnv where
  fetchDelay : Option Nat
  outcome : FetchOutcome
  reader : ReaderOutcome
deriving Repr

/-- Model of `s.split(',')[1]`: the segment between the first and second
comma, or `none` (JS `undefined`) when there is no comma. -/
def splitCommaSecond (cs : List Char) : Option (List Char) :=
  if cs.any (· == ',') then
    some (((cs.dropWhile fun c => c != ',').drop 1).takeWhile fun c => c != ',')
  else none

/-- The base64 payload the `FileReader` callback extracts:
`result.includes(',') ? result.split(',')[1] : result`. -/
def readerB64 (s : String) : String :=
  match splitCommaSecond s.data with
  | some b => String.mk b
  | none => s

/-- `convertImageToBase64` (part_002 lines 263-330).  The
`AbortController` timer fires at 30000 ms: a fetch that has not settled
by then is aborted, and the `AbortError` is reported as
`'Image conversion timed out'`.  Errors thrown inside the `try` block are
wrapped as `'Image conversion failed: …'`; the `FileReader` promise's
rejections escape the `try`/`catch` unwrapped. -/
def convertImageToBase64 (uri : String) (env : FetchEnv) : Except String String :=
  if uri = "" ∨ isBlank uri then .error "Empty URI provided"
  else if startsWithChars "data:image".data uri.data then
    match splitCommaSecond uri.data with
    | some b64 => if 100 < b64.length then .ok (String.mk b64) else .error "Invalid data URI format"
    | none => .error "Invalid data URI format"
  else if timedOut env.fetchDelay 30000 then .error "Image conversion timed out"
  else
    match env.outcome with
    | .netError m => .error ("Image conversion failed: " ++ m)
    | .reply ok status blobSize =>
      if !ok then .error ("Image conversion failed: Failed to fetch image: " ++ natToStr status)
      else if blobSize = 0 then .error "Image conversion failed: Image file is empty"
      else
        match env.reader with
        | .success dataUrl => .ok (readerB64 dataUrl)
        | .emptyResult => .error "FileReader returned empty"
        | .readError => .error "FileReader failed"

/-- `analyzeImageQuality` of the newer provider (part_002 lines 332-334):
a constant. -/
def analyzeImageQuality (_base64Image : String) : ImageQuality := ⟨75, []⟩

/-- The `Promise.race` of `generateObject` against the 60 s timer
(part_002 lines 398-419). -/
def aiRace (delay : Option Nat) (outcome : Except String (List AIProblem)) :
    Except String (List AIProblem) :=
  if timedOut delay 60000 then .error "AI request timed out after 60s" else outcome

/-- The `catch (aiError)` remapping of AI-call failures
(part_002 lines 421-437). -/
def remapAiError (m : String) : String :=
  if jsIncludes m "timed out" then
    "The AI service is taking too long. Please try with a clearer image."
  else if jsIncludes m "Failed to fetch" || jsIncludes m "NetworkError" || jsIncludes m "fetch" then
    "Unable to connect to the AI service. Please check your internet connection and try again."
  else "AI processing failed: " ++ m

/-- Oracle for one attempt of the `processScan` retry loop. -/
structure AttemptEnv where
  fetch : FetchEnv
  resize : String → String
  aiDelay : Option Nat
  aiOutcome : Except String (List AIProblem)
  scanId : String
  timestamp : Int

/-- Observable steps of one `processScan` run. -/
inductive PipeEvent where
  | convert (uri : String)
  | aiCall (image : String)
  | persist (scan : Scan)
  | delay (ms : Nat)
deriving DecidableEq, Repr

/-- The body of one attempt of `processScan` (part_002 lines 344-465),
up to the `saveScans` call: validate the URI, convert, validate the
base64, analyze quality, resize, call the AI (raced against the timer),
and build the new scan from the mapped problems. -/
def runAttempt (env : AttemptEnv) (uri : String) : Except String Scan × List PipeEvent :=
  if uri = "" ∨ isBlank uri then (.error "No image URI provided", [])
  else
    match convertImageToBase64 uri env.fetch with
    | .error m => (.error m, [.convert uri])
    | .ok b64 =>
      if b64.length < 100 then (.error "Invalid base64 image data", [.convert uri])
      else
        let quality := analyzeImageQuality b64
        let optimized := env.resize b64
        match aiRace env.aiDelay env.aiOutcome with
        | .error em => (.error (remapAiError em), [.convert uri, .aiCall optimized])
        | .ok ps =>
          let scan : Scan :=
            { id := env.scanId
              timestamp := env.timestamp
              imageUri := uri
              problems := ps.map toMathProblem
              imageQuality := some quality }
          (.ok scan, [.convert uri, .aiCall optimized, .persist scan])

/-- The error `processScan` throws after the loop exhausts all attempts
(part_002 lines 479-486). -/
def mkFinalError (lastErr : Option String) : String :=
  let m := lastErr.getD "Unknown error"
  if jsIncludes m "fetch" || jsIncludes m "network" || jsIncludes m "Failed to fetch" then
    "Unable to connect to the AI service. Please check your internet connection and try again."
  else "Failed to process image: " ++ m

/-- Result of a whole `processScan` call. -/
structure RunResult where
  outcome : Except String String
  storage : Storage
  scans : List Scan
  trace : List PipeEvent
  attemptsUsed : Nat
  lastError : Option String

/-- The `while (attempts < MAX_RETRIES)` loop of `processScan`
(part_002 lines 342-477): run an attempt; on success persist
`[newScan, ...scans]` and return the scan id; on failure record the
error and, when attempts remain, wait `RETRY_DELAY * attempts` before
retrying. -/
def processScanLoop (env : Nat → AttemptEnv) (uri : String) (st : Storage)
    (scans : List Scan) :
    Nat → Nat → Option String → List PipeEvent → RunResult
  | 0, done, lastErr, tr =>
    { outcome := .error (mkFinalError lastErr), storage := st, scans := scans,
      trace := tr, attemptsUsed := done, lastError := lastErr }
  | rem + 1, done, lastErr, tr =>
    match runAttempt (env (done + 1)) uri with
    | (.ok scan, ev) =>
      let saved := saveScans st scans (scan :: scans)
      { outcome := .ok scan.id, storage := saved.1, scans := saved.2,
        trace := tr ++ ev, attemptsUsed := done + 1, lastError := lastErr }
    | (.error m, ev) =>
      if rem = 0 then
        { outcome := .error (mkFinalError (some m)), storage := st, scans := scans,
          trace := tr ++ ev, attemptsUsed := done + 1, lastError := some m }
      else
        processScanLoop env uri st scans rem (done + 1) (some m)
          (tr ++ ev ++ [.delay (RETRY_DELAY * (done + 1))])

/-- `processScan` (part_002 lines 336-487). -/
def processScan (env : Nat → AttemptEnv) (uri : String) (st : Storage)
    (scans : List Scan) : RunResult :=
  processScanLoop env uri st scans MAX_RETRIES 0 none []

/-- Is the event a persist step? -/
def isPersist : PipeEvent → Bool
  | .persist _ => true
  | _ => false

/-- The delay durations occurring in a trace, in order. -/
def delaysOf (tr : List PipeEvent) : List Nat :=
  tr.filterMap fun e =>
    match e with
    | .delay ms => some ms
    | _ => none

theorem delaysOf_append (a b : List PipeEvent) :
    delaysOf (a ++ b) = delaysOf a ++ delaysOf b :=
  List.filterMap_append a b _

/-- Characterization of a successful attempt: the conversion succeeded,
the raced AI call succeeded, the scan is built from the mapped problems,
and the events are convert, AI call, persist, in that order. -/
theorem runAttempt_ok {env : AttemptEnv} {uri : String} {scan : Scan}
    {ev : List PipeEvent} (h : runAttempt env uri = (.ok scan, ev)) :
    ∃ b64 ps,
      convertImageToBase64 uri env.fetch = .ok b64 ∧
      aiRace env.aiDelay env.aiOutcome = .ok ps ∧
      scan = ({ id := env.scanId
                timestamp := env.timestamp
                imageUri := uri
                problems := ps.map toMathProblem
                imageQuality := some (analyzeImageQuality b64) } : Scan) ∧
      ev = [.convert uri, .aiCall (env.resize b64), .persist scan] := by
  unfold runAttempt at h
  split at h
  · simp at h
  · split at h
    next m heq => simp at h
    next b64 heq =>
      split at h
      · simp at h
      · split at h
        next em heq2 => simp at h
        next ps heq2 =>
          simp only [Prod.mk.injEq, Except.ok.injEq] at h
          obtain ⟨hs, he⟩ := h
          subst hs
          subst he
          exact ⟨b64, ps, heq, heq2, rfl, rfl⟩

/-- A failed attempt produces no persist and no delay events. -/
theorem runAttempt_err {env : AttemptEnv} {uri : String} {m : String}
    {ev : List PipeEvent} (h : runAttempt env uri = (.error m, ev)) :
    (∀ e ∈ ev, isPersist e = false) ∧ delaysOf ev = [] := by
  unfold runAttempt at h
  split at h
  · simp only [Prod.mk.injEq] at h
    rw [← h.2]
    exact ⟨by intro e he; simp at he, rfl⟩
  · split at h
    next m' heq =>
      simp only [Prod.mk.injEq] at h
      rw [← h.2]
      refine ⟨?_, rfl⟩
      intro e he
      simp only [List.mem_singleton] at he
      subst he
      rfl
    next b64 heq =>
      split at h
      · simp only [Prod.mk.injEq] at h
        rw [← h.2]
        refine ⟨?_, rfl⟩
        intro e he
        simp only [List.mem_singleton] at he
        subst he
        rfl
      · split at h
        next em heq2 =>
          simp only [Prod.mk.injEq] at h
          rw [← h.2]
          refine ⟨?_, rfl⟩
          intro e he
          simp only [List.mem_cons, List.not_mem_nil, or_false] at he
          rcases he with rfl | rfl <;> rfl
        next ps heq2 => simp at h

theorem stringifyScans_data (l : List Scan) :
    (stringifyScans l).data = '[' :: (renderArr (l.map encodeScan) ++ [']']) := rfl

theorem stringifyScans_ne_empty (l : List Scan) : stringifyScans l ≠ "" := by
  intro h
  have h2 := congrArg String.data h
  rw [stringifyScans_data] at h2
  simp at h2

theorem stringifyScans_ne_null (l : List Scan) : stringifyScans l ≠ "null" := by
  intro h
  have h2 := congrArg String.data h
  rw [stringifyScans_data] at h2
  have h3 : ("null" : String).data = ['n', 'u', 'l', 'l'] := rfl
  rw [h3] at h2
  simp at h2

theorem stringifyScans_ne_undefined (l : List Scan) : stringifyScans l ≠ "undefined" := by
  intro h
  have h2 := congrArg String.data h
  rw [stringifyScans_data] at h2
  have h3 : ("undefined" : String).data = ['u', 'n', 'd', 'e', 'f', 'i', 'n', 'e', 'd'] := rfl
  rw [h3] at h2
  simp at h2

/-- The falsy / `'null'` guard of `saveScans` never fires on a stringified
scan list, so `saveScans` always writes the same string under both keys
and sets the in-memory list. -/
theorem saveScans_eq (st : Storage) (mem newScans : List Scan) :
    saveScans st mem newScans =
      (⟨some (stringifyScans newScans), some (stringifyScans newScans)⟩, newScans) := by
  unfold saveScans
  rw [if_neg]
  push_neg
  exact ⟨stringifyScans_ne_empty newScans, stringifyScans_ne_null newScans⟩

/-- Characterization of a successful `processScanLoop` run: some attempt
`k` in range converted the image, got an AI response, and the loop
persisted the scan built from it, with the persist event last. -/
theorem processScanLoop_ok_spec (env : Nat → AttemptEnv) (uri : String) (st : Storage)
    (scans : List Scan) :
    ∀ (rem done : Nat) (lastErr : Option String) (tr : List PipeEvent) (rid : String),
    (∀ e ∈ tr, isPersist e = false) →
    (processScanLoop env uri st scans rem done lastErr tr).outcome = .ok rid →
    ∃ (k : Nat) (pre : List PipeEvent) (b64 : String) (ps : List AIProblem) (scan : Scan),
      done < k ∧ k ≤ done + rem ∧
      convertImageToBase64 uri (env k).fetch = .ok b64 ∧
      aiRace (env k).aiDelay (env k).aiOutcome = .ok ps ∧
      scan = ({ id := (env k).scanId
                timestamp := (env k).timestamp
                imageUri := uri
                problems := ps.map toMathProblem
                imageQuality := some (analyzeImageQuality b64) } : Scan) ∧
      scan.id = rid ∧
      (processScanLoop env uri st scans rem done lastErr tr).trace =
        pre ++ [.convert uri, .aiCall ((env k).resize b64), .persist scan] ∧
      (∀ e ∈ pre, isPersist e = false) ∧
      (processScanLoop env uri st scans rem done lastErr tr).scans = scan :: scans ∧
      (processScanLoop env uri st scans rem done lastErr tr).storage =
        ⟨some (stringifyScans (scan :: scans)), some (stringifyScans (scan :: scans))⟩ := by
  intro rem
  induction rem with
  | zero =>
    intro done lastErr tr rid _ h
    simp [processScanLoop] at h
  | succ rem ih =>
    intro done lastErr tr rid htr h
    rcases hra : runAttempt (env (done + 1)) uri with ⟨out, ev⟩
    cases out with
    | ok scan =>
      have hR : processScanLoop env uri st scans (rem + 1) done lastErr tr =
          { outcome := .ok scan.id
            storage := (saveScans st scans (scan :: scans)).1
            scans := (saveScans st scans (scan :: scans)).2
            trace := tr ++ ev
            attemptsUsed := done + 1
            lastError := lastErr } := by
        simp only [processScanLoop, hra]
      obtain ⟨b64, ps, hconv, hai, hscan, hev⟩ := runAttempt_ok hra
      rw [hR] at h
      simp only [Except.ok.injEq] at h
      refine ⟨done + 1, tr, b64, ps, scan, by omega, by omega, hconv, hai, hscan, h, ?_, htr,
        ?_, ?_⟩
      · rw [hR, hev]
      · rw [hR]
        show (saveScans st scans (scan :: scans)).2 = scan :: scans
        rw [saveScans_eq]
      · rw [hR]
        show (saveScans st scans (scan :: scans)).1 = _
        rw [saveScans_eq]
    | error m =>
      have hR : processScanLoop env uri st scans (rem + 1) done lastErr tr =
          if rem = 0 then
            { outcome := .error (mkFinalError (some m)), storage := st, scans := scans,
              trace := tr ++ ev, attemptsUsed := done + 1, lastError := some m }
          else
            processScanLoop env uri st scans rem (done + 1) (some m)
              (tr ++ ev ++ [.delay (RETRY_DELAY * (done + 1))]) := by
        simp only [processScanLoop, hra]
      by_cases hrem : rem = 0
      · rw [hR, if_pos hrem] at h
        simp at h
      · rw [hR, if_neg hrem] at h ⊢
        have htr' : ∀ e ∈ tr ++ ev ++ [PipeEvent.delay (RETRY_DELAY * (done + 1))],
            isPersist e = false := by
          intro e he
          rcases List.mem_append.mp he with he2 | he3
          · rcases List.mem_append.mp he2 with h4 | h5
            · exact htr e h4
            · exact (runAttempt_err hra).1 e h5
          · simp only [List.mem_singleton] at he3
            subst he3
            rfl
        obtain ⟨k, pre, b64, ps, scan, hk1, hk2, hrest⟩ :=
          ih (done + 1) (some m) (tr ++ ev ++ [.delay (RETRY_DELAY * (done + 1))]) rid htr' h
        exact ⟨k, pre, b64, ps, scan, by omega, by omega, hrest⟩

/-- Attempt-count bounds, the delay schedule, and the final-error shape of
any `processScanLoop` run. -/
theorem processScanLoop_spec (env : Nat → AttemptEnv) (uri : String) (st : Storage)
    (scans : List Scan) :
    ∀ (rem done : Nat) (lastErr : Option String) (tr : List PipeEvent),
    1 ≤ rem →
    (done + 1 ≤ (processScanLoop env uri st scans rem done lastErr tr).attemptsUsed ∧
      (processScanLoop env uri st scans rem done lastErr tr).attemptsUsed ≤ done + rem) ∧
    delaysOf (processScanLoop env uri st scans rem done lastErr tr).trace =
      delaysOf tr ++
        ((List.range ((processScanLoop env uri st scans rem done lastErr tr).attemptsUsed
            - done - 1)).map fun i => RETRY_DELAY * (done + i + 1)) ∧
    (∀ m, (processScanLoop env uri st scans rem done lastErr tr).outcome = .error m →
      (processScanLoop env uri st scans rem done lastErr tr).attemptsUsed = done + rem ∧
      ∃ lm, (processScanLoop env uri st scans rem done lastErr tr).lastError = some lm ∧
        m = mkFinalError (some lm)) := by
  intro rem
  induction rem with
  | zero =>
    intro done lastErr tr h1
    omega
  | succ rem ih =>
    intro done lastErr tr _
    rcases hra : runAttempt (env (done + 1)) uri with ⟨out, ev⟩
    cases out with
    | ok scan =>
      have hR : processScanLoop env uri st scans (rem + 1) done lastErr tr =
          { outcome := .ok scan.id
            storage := (saveScans st scans (scan :: scans)).1
            scans := (saveScans st scans (scan :: scans)).2
            trace := tr ++ ev
            attemptsUsed := done + 1
            lastError := lastErr } := by
        simp only [processScanLoop, hra]
      rw [hR]
      obtain ⟨b64, ps, _, _, _, hev⟩ := runAttempt_ok hra
      refine ⟨⟨by show done + 1 ≤ done + 1; omega,
        by show done + 1 ≤ done + (rem + 1); omega⟩, ?_, ?_⟩
      · show delaysOf (tr ++ ev) = delaysOf tr ++
          ((List.range (done + 1 - done - 1)).map fun i => RETRY_DELAY * (done + i + 1))
        rw [delaysOf_append, hev]
        simp [delaysOf, List.filterMap]
      · intro m hm
        simp at hm
    | error m =>
      have hR : processScanLoop env uri st scans (rem + 1) done lastErr tr =
          if rem = 0 then
            { outcome := .error (mkFinalError (some m)), storage := st, scans := scans,
              trace := tr ++ ev, attemptsUsed := done + 1, lastError := some m }
          else
            processScanLoop env uri st scans rem (done + 1) (some m)
              (tr ++ ev ++ [.delay (RETRY_DELAY * (done + 1))]) := by
        simp only [processScanLoop, hra]
      by_cases hrem : rem = 0
      · subst hrem
        rw [hR, if_pos rfl]
        refine ⟨⟨by show done + 1 ≤ done + 1; omega,
          by show done + 1 ≤ done + (0 + 1); omega⟩, ?_, ?_⟩
        · show delaysOf (tr ++ ev) = delaysOf tr ++
            ((List.range (done + 1 - done - 1)).map fun i => RETRY_DELAY * (done + i + 1))
          rw [delaysOf_append, (runAttempt_err hra).2]
          simp
        · intro m' hm'
          simp only [Except.error.injEq] at hm'
          exact ⟨by show done + 1 = done + (0 + 1); omega, m, rfl, hm'.symm⟩
      · rw [hR, if_neg hrem]
        obtain ⟨⟨ha1, ha2⟩, hdel, herr⟩ :=
          ih (done + 1) (some m) (tr ++ ev ++ [.delay (RETRY_DELAY * (done + 1))])
            (by omega)
        set A := (processScanLoop env uri st scans rem (done + 1) (some m)
          (tr ++ ev ++ [.delay (RETRY_DELAY * (done + 1))])).attemptsUsed with hA
        refine ⟨⟨by omega, by omega⟩, ?_, ?_⟩
        · rw [hdel, delaysOf_append, delaysOf_append, (runAttempt_err hra).2]
          have hd1 : delaysOf [PipeEvent.delay (RETRY_DELAY * (done + 1))] =
              [RETRY_DELAY * (done + 1)] := rfl
          rw [hd1]
          have hsplit : A - done - 1 = (A - done - 2) + 1 := by omega
          rw [hsplit, List.range_succ_eq_map, List.map_cons, List.map_map]
          have hA2 : A - (done + 1) - 1 = A - done - 2 := by omega
          rw [hA2]
          have hfun : ((fun i => RETRY_DELAY * (done + i + 1)) ∘ Nat.succ) =
              fun i => RETRY_DELAY * (done + 1 + i + 1) := by
            funext i
            show RETRY_DELAY * (done + (i + 1) + 1) = RETRY_DELAY * (done + 1 + i + 1)
            congr 1
            omega
          rw [hfun]
          simp [List.append_assoc]
        · intro m' hm'
          obtain ⟨hAe, lm, hlm, hml⟩ := herr m' hm'
          exact ⟨by omega, lm, hlm, hml⟩

end V2

/-! ## The older provider (`src/providers/MathScanProvider.tsx`) -/

/-- Suffix of `cs` starting at the first occurrence of `o`. -/
def dropUntilChar (o : Char) : List Char → Option (List Char)
  | [] => none
  | c :: cs => if c = o then some (c :: cs) else dropUntilChar o cs

/-- Longest prefix of `cs` ending with the character `cl`. -/
def cutToLastChar (cl : Char) (cs : List Char) : Option (List Char) :=
  let tail := cs.reverse.dropWhile fun c => c != cl
  if tail.isEmpty then none else some tail.reverse

/-- Semantics of the greedy JS regex `/o[\s\S]*cl/` for one-character
delimiters `o`, `cl`: the substring from the first `o` to the last `cl`
(when the last `cl` comes after the first `o`). -/
def jsGreedyDelim (o cl : Char) (cs : List Char) : Option (List Char) :=
  match dropUntilChar o cs with
  | none => none
  | some suffix =>
    match suffix with
    | [] => none
    | c0 :: rest =>
      match cutToLastChar cl rest with
      | none => none
      | some body => some (c0 :: body)

/-- `completion.match(/\[[\s\S]*\]/)` of the older provider. -/
def jsBracketMatch (s : String) : Option String :=
  (jsGreedyDelim '[' ']' s.data).map String.mk

/-- `completion.match(/\{[\s\S]*\}/)` of `analyzeImageQuality`. -/
def jsBraceMatch (s : String) : Option String :=
  (jsGreedyDelim lbrace rbrace s.data).map String.mk

namespace V1

/-- The object `analyzeImageQuality` reads from the parsed quality JSON
(fields may be absent). -/
structure QualityResult where
  score : Option Int
  issues : Option (List String)
  recommendations : Option (List String)

/-- Outcome of the quality-analysis HTTP call. -/
inductive QualityHttp where
  | netError (msg : String)
  | reply (ok : Bool) (completion : String)

/-- JS `x || d` on a number field: `undefined` and `0` are falsy. -/
def jsNumOr (o : Option Int) (d : Int) : Int :=
  match o with
  | none => d
  | some n => if n = 0 then d else n

/-- `analyzeImageQuality` (MathScanProvider.tsx lines 216-286).
`parseQ` models `JSON.parse` on the brace-matched substring (`none` =
parse threw).  Every failure path returns the default
`{ score: 50, issues: [] }`; the function never throws. -/
def analyzeImageQuality (parseQ : String → Option QualityResult) :
    QualityHttp → ImageQuality
  | .netError _ => ⟨50, []⟩
  | .reply ok completion =>
    if !ok then ⟨50, []⟩
    else
      match jsBraceMatch completion with
      | none => ⟨50, []⟩
      | some m =>
        match parseQ m with
        | none => ⟨50, []⟩
        | some r => ⟨jsNumOr r.score 50, r.issues.getD [] ++ r.recommendations.getD []⟩

/-- The placeholder stored when the AI response cannot be parsed
(MathScanProvider.tsx lines 451-457). -/
def fallbackProblem : MathProblem :=
  { problemText := "Unable to parse problems"
    userAnswer := none
    correctAnswer := none
    isCorrect := false
    explanation := some "There was an error processing the image. Please try again."
    problemType := none
    steps := none
    confidence := none
    qualityIssues := none }

/-- The AI-response extraction of `processScan` (MathScanProvider.tsx
lines 441-458): JSON-parse the bracket-matched substring, or the whole
completion when the regex does not match; on a parse exception store the
single placeholder problem.  `jsonParse` models `JSON.parse` (`none` =
threw). -/
def extractProblems (jsonParse : String → Option (List MathProblem))
    (completion : String) : List MathProblem :=
  match jsBracketMatch completion with
  | some m =>
    match jsonParse m with
    | some ps => ps
    | none => [fallbackProblem]
  | none =>
    match jsonParse completion with
    | some ps => ps
    | none => [fallbackProblem]

/-- Outcome of the older provider's AI HTTP call.  `completion = none`
models `data.completion` being `undefined` (its `.match` then throws
inside the inner `try`, producing the placeholder). -/
inductive AiHttp where
  | netError (msg : String)
  | reply (ok : Bool) (status : Nat) (errText : String) (completion : Option String)

/-- Oracle for one `processScan` call of the older provider. -/
structure Env1 where
  convertResult : Except String String
  qualityHttp : QualityHttp
  aiHttp : AiHttp
  jsonParse : String → Option (List MathProblem)
  parseQ : String → Option QualityResult
  scanId : String
  timestamp : Int

/-- `processScan` (MathScanProvider.tsx lines 288-482): no retry loop;
convert, analyze quality, call the AI, extract the problems, prepend the
new scan and return its id.  Any thrown error propagates. -/
def processScan (env : Env1) (uri : String) (scans : List Scan) :
    Except String (String × List Scan) :=
  if uri = "" then .error "No image URI provided"
  else
    match env.convertResult with
    | .error m => .error m
    | .ok _ =>
      let quality := analyzeImageQuality env.parseQ env.qualityHttp
      match env.aiHttp with
      | .netError m => .error m
      | .reply ok status errText completionOpt =>
        if !ok then .error ("API error: " ++ natToStr status ++ " - " ++ errText)
        else
          let problems :=
            match completionOpt with
            | none => [fallbackProblem]
            | some completion => extractProblems env.jsonParse completion
          let scan : Scan :=
            { id := env.scanId
              timestamp := env.timestamp
              imageUri := uri
              problems := problems
              imageQuality := some quality }
          .ok (env.scanId, scan :: scans)

end V1

/-! ## Further helper lemmas for the claims -/

namespace V2

/-- Any storage cell holding a stringified scan list loads back to that
list. -/
theorem loadScans_read {st : Storage} {l : List Scan}
    (h : loadRead st = some (stringifyScans l)) : loadScans st = l := by
  unfold loadScans
  rw [h]
  show (if stringifyScans l = "" ∨ stringifyScans l = "null" ∨ stringifyScans l = "undefined"
      then ([] : List Scan)
      else match parseScans (stringifyScans l) with
        | some found => found
        | none => []) = l
  rw [if_neg (by
    push_neg
    exact ⟨stringifyScans_ne_empty l, stringifyScans_ne_null l,
      stringifyScans_ne_undefined l⟩)]
  rw [parseScans_stringifyScans]

theorem loadRead_primary_stringify (l : List Scan) (b : Option String) :
    loadRead ⟨some (stringifyScans l), b⟩ = some (stringifyScans l) := by
  show (if stringifyScans l = "" then b else some (stringifyScans l)) = _
  rw [if_neg (stringifyScans_ne_empty l)]

theorem loadRead_backup (b : Option String) : loadRead ⟨none, b⟩ = b := rfl

/-- Generic `reduce`-to-sum conversion for the stats effect. -/
theorem foldl_add_map {α : Type} (f : α → Nat) :
    ∀ (l : List α) (n : Nat), l.foldl (fun acc x => acc + f x) n = n + (l.map f).sum := by
  intro l
  induction l with
  | nil => intro n; simp
  | cons a t ih =>
    intro n
    simp only [List.foldl_cons, List.map_cons, List.sum_cons, ih]
    omega

theorem sum_map_le_sum_map {α : Type} (l : List α) (f g : α → Nat)
    (h : ∀ a ∈ l, f a ≤ g a) : (l.map f).sum ≤ (l.map g).sum := by
  induction l with
  | nil => simp
  | cons a t ih =>
    simp only [List.map_cons, List.sum_cons]
    have h1 := h a (List.mem_cons_self a t)
    have h2 := ih fun x hx => h x (List.mem_cons_of_mem a hx)
    omega

theorem computeStats_totalProblems (l : List Scan) :
    (computeStats l).totalProblems = (l.map fun s => s.problems.length).sum := by
  show l.foldl (fun acc scan => acc + scan.problems.length) 0 = _
  rw [foldl_add_map]
  simp

theorem computeStats_correctAnswers (l : List Scan) :
    (computeStats l).correctAnswers =
      (l.map fun s => (s.problems.filter fun p => p.isCorrect).length).sum := by
  show l.foldl (fun acc scan => acc + (scan.problems.filter fun p => p.isCorrect).length) 0 = _
  rw [foldl_add_map]
  simp

/-- The stats invariant: correct answers never exceed total problems. -/
theorem computeStats_le (l : List Scan) :
    (computeStats l).correctAnswers ≤ (computeStats l).totalProblems := by
  rw [computeStats_totalProblems, computeStats_correctAnswers]
  exact sum_map_le_sum_map l _ _ fun s _ => List.length_filter_le _ _

end V2

/-! ## The claims -/

/-- C1: `saveScans` writes the identical serialized JSON string under both
the primary key `"mathscan_history"` and the backup key
`"mathscan_history_backup"`; `loadScans` consults the backup cell when the
primary holds no value and the primary cell when it holds a (nonempty)
value; and a history saved under either key is recovered on load. -/
theorem claim_C1_backup_durability (l mem : List Scan) (st0 st : Storage)
    (hp : ∀ s, st.primary = some s → s ≠ "") (b : Option String) :
    ((V2.saveScans st0 mem l).1.primary = some (stringifyScans l) ∧
      (V2.saveScans st0 mem l).1.backup = some (stringifyScans l)) ∧
    (st.primary = none → V2.loadRead st = st.backup) ∧
    (∀ s, st.primary = some s → V2.loadRead st = some s) ∧
    V2.loadScans ⟨some (stringifyScans l), b⟩ = l ∧
    V2.loadScans ⟨none, some (stringifyScans l)⟩ = l := by
  refine ⟨?_, ?_, ?_, ?_, ?_⟩
  · rw [V2.saveScans_eq]
    exact ⟨rfl, rfl⟩
  · intro h
    unfold V2.loadRead
    rw [h]
  · intro s h
    unfold V2.loadRead
    rw [h]
    show (if s = "" then st.backup else some s) = some s
    rw [if_neg (hp s h)]
  · exact V2.loadScans_read (V2.loadRead_primary_stringify l b)
  · exact V2.loadScans_read (V2.loadRead_backup _)

/-- Witness for C1 at a concrete nonempty primary value. -/
theorem claim_C1_backup_durability_witness :
    V2.loadRead ⟨some "x", some "y"⟩ = some "x" :=
  (claim_C1_backup_durability [] [] ⟨none, none⟩ ⟨some "x", some "y"⟩
    (by
      intro s hs
      simp only [Option.some.injEq] at hs
      subst hs
      decide)
    none).2.2.1 "x" rfl

/-- C5: the scan history round-trips through the single-key JSON blob:
`saveScans` serializes the whole list as one string under one key, the
in-memory list becomes exactly the saved list, and a subsequent
`loadScans` recovers exactly the saved list. -/
theorem claim_C5_roundtrip (st : Storage) (mem l : List Scan) :
    (V2.saveScans st mem l).1.primary = some (stringifyScans l) ∧
    (V2.saveScans st mem l).2 = l ∧
    V2.loadScans (V2.saveScans st mem l).1 = l := by
  rw [V2.saveScans_eq]
  exact ⟨rfl, rfl, V2.loadScans_read (V2.loadRead_primary_stringify l _)⟩

/-- C8: the stats are derived from the current scan list — `totalScans`
is the length, `totalProblems` the sum of the per-scan problem counts,
`correctAnswers` the count of problems with `isCorrect`; hence
`correctAnswers ≤ totalProblems` holds for the list produced by every
operation (`processScan`, `deleteScan`, `clearAllScans`, `loadScans`). -/
theorem claim_C8_stats_invariant (l : List Scan) :
    (V2.computeStats l).totalScans = l.length ∧
    (V2.computeStats l).totalProblems = (l.map fun s => s.problems.length).sum ∧
    (V2.computeStats l).correctAnswers =
      (l.map fun s => (s.problems.filter fun p => p.isCorrect).length).sum ∧
    (V2.computeStats l).correctAnswers ≤ (V2.computeStats l).totalProblems ∧
    (∀ (env : Nat → V2.AttemptEnv) (uri : String) (st : Storage),
      (V2.computeStats (V2.processScan env uri st l).scans).correctAnswers ≤
        (V2.computeStats (V2.processScan env uri st l).scans).totalProblems) ∧
    (∀ (st : Storage) (idv : String),
      (V2.computeStats (V2.deleteScan st l idv).2).correctAnswers ≤
        (V2.computeStats (V2.deleteScan st l idv).2).totalProblems) ∧
    (∀ (st : Storage),
      (V2.computeStats (V2.clearAllScans st l).2).correctAnswers ≤
        (V2.computeStats (V2.clearAllScans st l).2).totalProblems) ∧
    (∀ (st : Storage),
      (V2.computeStats (V2.loadScans st)).correctAnswers ≤
        (V2.computeStats (V2.loadScans st)).totalProblems) :=
  ⟨rfl, V2.computeStats_totalProblems l, V2.computeStats_correctAnswers l,
    V2.computeStats_le l,
    fun _ _ _ => V2.computeStats_le _,
    fun _ _ => V2.computeStats_le _,
    fun _ => V2.computeStats_le _,
    fun _ => V2.computeStats_le _⟩

/-- C9: `deleteScan` removes exactly the scans whose id equals the
argument, preserves the relative order of the rest (sublist), makes
`getScanById` return `undefined` for that id afterwards, and is the
identity when the id is absent; the persisted list of `deleteScan` is
exactly this filtered list. -/
theorem claim_C9_delete_frame (l : List Scan) (idv : String) :
    (∀ s : Scan, s ∈ V2.deleteScanList l idv ↔ (s ∈ l ∧ s.id ≠ idv)) ∧
    (V2.deleteScanList l idv).Sublist l ∧
    V2.getScanById (V2.deleteScanList l idv) idv = none ∧
    ((∀ s ∈ l, s.id ≠ idv) → V2.deleteScanList l idv = l) ∧
    (∀ (st : Storage) (mem : List Scan),
      (V2.deleteScan st mem idv).2 = V2.deleteScanList mem idv) := by
  refine ⟨?_, ?_, ?_, ?_, ?_⟩
  · intro s
    unfold V2.deleteScanList
    simp [List.mem_filter, bne_iff_ne]
  · exact List.filter_sublist l
  · unfold V2.getScanById V2.deleteScanList
    rw [List.find?_eq_none]
    intro s hs
    have := (List.mem_filter.mp hs).2
    simp only [bne_iff_ne, ne_eq] at this
    simp [this]
  · intro h
    unfold V2.deleteScanList
    rw [List.filter_eq_self]
    intro s hs
    simpa [bne_iff_ne] using h s hs
  · intro st mem
    unfold V2.deleteScan
    rw [V2.saveScans_eq]

/-- Witness for C9: deleting an absent id leaves a concrete list
unchanged. -/
theorem claim_C9_delete_frame_witness :
    V2.deleteScanList [⟨"a", 0, "u", [], none⟩] "z" = [⟨"a", 0, "u", [], none⟩] :=
  (claim_C9_delete_frame [⟨"a", 0, "u", [], none⟩] "z").2.2.2.1 (by decide)

/-- A concrete pipeline environment whose every attempt succeeds. -/
def sampleOkEnv : Nat → V2.AttemptEnv := fun _ =>
  { fetch :=
      { fetchDelay := some 10
        outcome := .reply true 200 5
        reader := .success ("data:image/jpeg;base64," ++ String.mk (List.replicate 150 'A')) }
    resize := id
    aiDelay := some 10
    aiOutcome := .ok [⟨"2+2", some "4", some "4", true, none, some .arithmetic, none,
      some 95, none⟩]
    scanId := "123"
    timestamp := 5 }

/-- A concrete pipeline environment whose every attempt fails with a
fetch network error. -/
def sampleFailEnv : Nat → V2.AttemptEnv := fun _ =>
  { fetch :=
      { fetchDelay := some 10
        outcome := .netError "Failed to fetch"
        reader := .readError }
    resize := id
    aiDelay := some 10
    aiOutcome := .error "x"
    scanId := "123"
    timestamp := 5 }

/-- C2: a `processScan` run that returns a scan id converted the image,
sent it to the AI service and only then persisted — its trace is some
persist-free prefix followed by convert, AI call, persist in that order;
the persisted scan holds the problems extracted from the AI response,
its id is the returned id, and it is prepended to the history. -/
theorem claim_C2_pipeline_order (env : Nat → V2.AttemptEnv) (uri : String) (st : Storage)
    (scans : List Scan) (rid : String)
    (h : (V2.processScan env uri st scans).outcome = .ok rid) :
    ∃ (k : Nat) (pre : List V2.PipeEvent) (b64 : String) (ps : List V2.AIProblem) (scan : Scan),
      V2.convertImageToBase64 uri (env k).fetch = .ok b64 ∧
      V2.aiRace (env k).aiDelay (env k).aiOutcome = .ok ps ∧
      scan.problems = ps.map V2.toMathProblem ∧
      scan.id = rid ∧
      (V2.processScan env uri st scans).trace =
        pre ++ [.convert uri, .aiCall ((env k).resize b64), .persist scan] ∧
      (∀ e ∈ pre, V2.isPersist e = false) ∧
      (V2.processScan env uri st scans).scans = scan :: scans := by
  obtain ⟨k, pre, b64, ps, scan, _, _, hconv, hai, hscan, hid, htr, hpre, hscans, _⟩ :=
    V2.processScanLoop_ok_spec env uri st scans MAX_RETRIES 0 none [] rid (by simp) h
  refine ⟨k, pre, b64, ps, scan, hconv, hai, ?_, hid, ?_, hpre, ?_⟩
  · rw [hscan]
  · show (V2.processScan env uri st scans).trace = _
    unfold V2.processScan
    exact htr
  · unfold V2.processScan
    exact hscans

set_option maxRecDepth 100000 in
/-- Witness for C2 at a concrete successful run. -/
theorem claim_C2_pipeline_order_witness :
    ∃ (k : Nat) (pre : List V2.PipeEvent) (b64 : String) (ps : List V2.AIProblem) (scan : Scan),
      V2.convertImageToBase64 "file:///a.jpg" (sampleOkEnv k).fetch = .ok b64 ∧
      V2.aiRace (sampleOkEnv k).aiDelay (sampleOkEnv k).aiOutcome = .ok ps ∧
      scan.problems = ps.map V2.toMathProblem ∧
      scan.id = "123" ∧
      (V2.processScan sampleOkEnv "file:///a.jpg" ⟨none, none⟩ []).trace =
        pre ++ [.convert "file:///a.jpg", .aiCall ((sampleOkEnv k).resize b64), .persist scan] ∧
      (∀ e ∈ pre, V2.isPersist e = false) ∧
      (V2.processScan sampleOkEnv "file:///a.jpg" ⟨none, none⟩ []).scans = scan :: [] :=
  claim_C2_pipeline_order sampleOkEnv "file:///a.jpg" ⟨none, none⟩ [] "123" (by rfl)

/-- C3 (amended): the retry loop makes at most `MAX_RETRIES = 3`
attempts and waits `RETRY_DELAY × attempt-number` (1500 ms, then
3000 ms) before each retry; when every attempt fails the loop stops
after exactly 3 attempts and throws an error built from the last
failure's message — wrapping it as
`"Failed to process image: <message>"` unless the message matches the
network heuristic, in which case a fixed connectivity message is
thrown. -/
theorem claim_C3_retry_backoff (env : Nat → V2.AttemptEnv) (uri : String) (st : Storage)
    (scans : List Scan) :
    (1 ≤ (V2.processScan env uri st scans).attemptsUsed ∧
      (V2.processScan env uri st scans).attemptsUsed ≤ MAX_RETRIES) ∧
    V2.delaysOf (V2.processScan env uri st scans).trace =
      (List.range ((V2.processScan env uri st scans).attemptsUsed - 1)).map
        (fun i => RETRY_DELAY * (i + 1)) ∧
    (∀ m, (V2.processScan env uri st scans).outcome = .error m →
      (V2.processScan env uri st scans).attemptsUsed = MAX_RETRIES ∧
      ∃ lm, (V2.processScan env uri st scans).lastError = some lm ∧
        m = V2.mkFinalError (some lm)) ∧
    (∀ s, (jsIncludes s "fetch" || jsIncludes s "network" ||
        jsIncludes s "Failed to fetch") = false →
      V2.mkFinalError (some s) = "Failed to process image: " ++ s) := by
  obtain ⟨⟨h1, h2⟩, hdel, herr⟩ :=
    V2.processScanLoop_spec env uri st scans MAX_RETRIES 0 none [] (by decide)
  unfold V2.processScan
  refine ⟨⟨by omega, by omega⟩, ?_, ?_, ?_⟩
  · rw [hdel]
    have hf : (fun i => RETRY_DELAY * (0 + i + 1)) = fun i => RETRY_DELAY * (i + 1) := by
      funext i
      simp
    have hn : (V2.processScanLoop env uri st scans MAX_RETRIES 0 none []).attemptsUsed - 0 - 1 =
        (V2.processScanLoop env uri st scans MAX_RETRIES 0 none []).attemptsUsed - 1 := by
      omega
    rw [hf, hn]
    rfl
  · intro m hm
    obtain ⟨hA, lm, h3, h4⟩ := herr m hm
    exact ⟨by omega, lm, h3, h4⟩
  · intro s hs
    simp [V2.mkFinalError, hs]

/-- Witness for C3 at a concrete run where every attempt fails. -/
theorem claim_C3_retry_backoff_witness :
    (V2.processScan sampleFailEnv "file:///a.jpg" ⟨none, none⟩ []).attemptsUsed = MAX_RETRIES ∧
    ∃ lm,
      (V2.processScan sampleFailEnv "file:///a.jpg" ⟨none, none⟩ []).lastError = some lm ∧
      "Unable to connect to the AI service. Please check your internet connection and try again." =
        V2.mkFinalError (some lm) :=
  (claim_C3_retry_backoff sampleFailEnv "file:///a.jpg" ⟨none, none⟩ []).2.2.1
    "Unable to connect to the AI service. Please check your internet connection and try again."
    (by rfl)

/-- Counterexample to C3 as stated: when the last failure's message
mentions a fetch error, the thrown error is a fixed connectivity message
that does not wrap (contain) the last failure's message. -/
theorem claim_C3_counterexample :
    (V2.processScan sampleFailEnv "file:///a.jpg" ⟨none, none⟩ []).outcome =
      .error "Unable to connect to the AI service. Please check your internet connection and try again." ∧
    (V2.processScan sampleFailEnv "file:///a.jpg" ⟨none, none⟩ []).lastError =
      some "Image conversion failed: Failed to fetch" ∧
    jsIncludes
      "Unable to connect to the AI service. Please check your internet connection and try again."
      "Image conversion failed: Failed to fetch" = false :=
  ⟨rfl, rfl, rfl⟩

/-- C6: both network calls of the pipeline are timeout-guarded: a fetch
in `convertImageToBase64` that has not settled after 30000 ms is aborted
and reported as `'Image conversion timed out'`, and an AI request that
has not settled after 60000 ms loses the race and rejects with
`'AI request timed out after 60s'` — even an operation that never
settles is timed out, so neither call waits forever. -/
theorem claim_C6_timeouts :
    (∀ (uri : String) (env : V2.FetchEnv),
      ¬(uri = "" ∨ isBlank uri = true) →
      startsWithChars "data:image".data uri.data = false →
      V2.timedOut env.fetchDelay 30000 = true →
      V2.convertImageToBase64 uri env = .error "Image conversion timed out") ∧
    (∀ (d : Option Nat) (out : Except String (List V2.AIProblem)),
      V2.timedOut d 60000 = true →
      V2.aiRace d out = .error "AI request timed out after 60s") ∧
    (∀ limit : Nat, V2.timedOut none limit = true) := by
  refine ⟨?_, ?_, ?_⟩
  · intro uri env h1 h2 h3
    unfold V2.convertImageToBase64
    rw [if_neg h1, if_neg (by simp [h2]), if_pos h3]
  · intro d out h
    unfold V2.aiRace
    rw [if_pos h]
  · intro limit
    rfl

/-- Witness for C6 at a fetch that never settles and an AI call that
never settles. -/
theorem claim_C6_timeouts_witness :
    V2.convertImageToBase64 "file:///a.jpg" ⟨none, .netError "x", .readError⟩ =
      .error "Image conversion timed out" ∧
    V2.aiRace none (.ok []) = .error "AI request timed out after 60s" :=
  ⟨claim_C6_timeouts.1 "file:///a.jpg" ⟨none, .netError "x", .readError⟩ (by decide) rfl rfl,
   claim_C6_timeouts.2.1 none (.ok []) rfl⟩

/-- C7: in every successful `processScan` run the persisted problems are
exactly the AI response's problems, field by field — `problemText`,
`userAnswer`, `correctAnswer`, `isCorrect`, `explanation`,
`problemType` and `confidence` pass through unchanged, while missing
`steps` and `qualityIssues` become empty arrays; the client stores the
service's `isCorrect` verbatim. -/
theorem claim_C7_ai_values (env : Nat → V2.AttemptEnv) (uri : String) (st : Storage)
    (scans : List Scan) (rid : String)
    (h : (V2.processScan env uri st scans).outcome = .ok rid) :
    ∃ (k : Nat) (ps : List V2.AIProblem) (scan : Scan),
      V2.aiRace (env k).aiDelay (env k).aiOutcome = .ok ps ∧
      (V2.processScan env uri st scans).scans.head? = some scan ∧
      scan.problems = ps.map V2.toMathProblem ∧
      ∀ p ∈ ps, ∃ q ∈ scan.problems,
        q.problemText = p.problemText ∧ q.userAnswer = p.userAnswer ∧
        q.correctAnswer = p.correctAnswer ∧ q.isCorrect = p.isCorrect ∧
        q.explanation = p.explanation ∧ q.problemType = p.problemType ∧
        q.confidence = p.confidence ∧ q.steps = some (p.steps.getD []) ∧
        q.qualityIssues = some (p.qualityIssues.getD []) := by
  obtain ⟨k, pre, b64, ps, scan, _, _, _, hai, hscan, _, _, _, hscans, _⟩ :=
    V2.processScanLoop_ok_spec env uri st scans MAX_RETRIES 0 none [] rid (by simp) h
  refine ⟨k, ps, scan, hai, ?_, ?_, ?_⟩
  · show (V2.processScan env uri st scans).scans.head? = some scan
    unfold V2.processScan
    rw [hscans]
    rfl
  · rw [hscan]
  · intro p hp
    refine ⟨V2.toMathProblem p, ?_, rfl, rfl, rfl, rfl, rfl, rfl, rfl, rfl, rfl⟩
    rw [hscan]
    exact List.mem_map_of_mem _ hp

/-! ### Characterization of the greedy delimiter regex (for C4) -/

theorem dropUntilChar_eq_some {o : Char} :
    ∀ (cs suffix : List Char), dropUntilChar o cs = some suffix ↔
      ∃ pre t, cs = pre ++ o :: t ∧ o ∉ pre ∧ suffix = o :: t := by
  intro cs
  induction cs with
  | nil =>
    intro suffix
    constructor
    · intro h
      simp [dropUntilChar] at h
    · rintro ⟨pre, t, h, -, -⟩
      exact absurd h.symm (by simp)
  | cons c cs ih =>
    intro suffix
    constructor
    · intro h
      simp only [dropUntilChar] at h
      split at h
      next hc =>
        subst hc
        exact ⟨[], cs, rfl, by simp, (Option.some.inj h).symm⟩
      next hc =>
        obtain ⟨pre, t, hcs, hpre, hsuf⟩ := (ih suffix).mp h
        refine ⟨c :: pre, t, by rw [hcs]; rfl, ?_, hsuf⟩
        simp only [List.mem_cons, not_or]
        exact ⟨fun he => hc he.symm, hpre⟩
    · rintro ⟨pre, t, hcs, hpre, hsuf⟩
      cases pre with
      | nil =>
        simp only [List.nil_append, List.cons.injEq] at hcs
        obtain ⟨rfl, rfl⟩ := hcs
        simp [dropUntilChar, hsuf]
      | cons p pre' =>
        simp only [List.cons_append, List.cons.injEq] at hcs
        obtain ⟨rfl, hcs2⟩ := hcs
        have hpo : ¬ c = o := by
          intro hco
          exact hpre (by simp [hco])
        simp only [dropUntilChar, if_neg hpo]
        exact (ih suffix).mpr ⟨pre', t, hcs2, fun hm => hpre (List.mem_cons_of_mem _ hm), hsuf⟩

theorem dropWhile_cons_head {p : Char → Bool} :
    ∀ (l : List Char) (c : Char) (t : List Char),
    l.dropWhile p = c :: t → p c = false ∧ l = l.takeWhile p ++ c :: t := by
  intro l
  induction l with
  | nil => intro c t h; simp at h
  | cons a l ih =>
    intro c t h
    by_cases ha : p a
    · rw [List.dropWhile_cons_of_pos ha] at h
      obtain ⟨h1, h2⟩ := ih c t h
      refine ⟨h1, ?_⟩
      rw [List.takeWhile_cons_of_pos ha]
      simpa using h2
    · rw [List.dropWhile_cons_of_neg ha] at h
      obtain ⟨rfl, rfl⟩ := List.cons.inj h
      refine ⟨by simpa using ha, ?_⟩
      rw [List.takeWhile_cons_of_neg ha]
      rfl

theorem cutToLastChar_eq_some {cl : Char} (cs body : List Char) :
    cutToLastChar cl cs = some body ↔
      ∃ mid post, cs = mid ++ cl :: post ∧ cl ∉ post ∧ body = mid ++ [cl] := by
  unfold cutToLastChar
  constructor
  · intro h
    cases htt : cs.reverse.dropWhile (fun c => c != cl) with
    | nil =>
      rw [htt] at h
      simp at h
    | cons c0 t0 =>
      rw [htt] at h
      have h2 : (if (c0 :: t0).isEmpty = true then none else some ((c0 :: t0).reverse)) =
          some body := h
      rw [show (c0 :: t0).isEmpty = false from rfl] at h2
      rw [if_neg (by decide)] at h2
      have hbody : (c0 :: t0).reverse = body := Option.some.inj h2
      obtain ⟨hpc, hsplit⟩ := dropWhile_cons_head _ _ _ htt
      have hc0 : c0 = cl := by simpa using hpc
      subst hc0
      refine ⟨t0.reverse, (cs.reverse.takeWhile fun c => c != c0).reverse, ?_, ?_, ?_⟩
      · calc cs = cs.reverse.reverse := (List.reverse_reverse cs).symm
          _ = ((cs.reverse.takeWhile fun c => c != c0) ++ c0 :: t0).reverse := by rw [← hsplit]
          _ = (c0 :: t0).reverse ++ (cs.reverse.takeWhile fun c => c != c0).reverse :=
            List.reverse_append _ _
          _ = t0.reverse ++ c0 :: (cs.reverse.takeWhile fun c => c != c0).reverse := by
            simp [List.reverse_cons, List.append_assoc]
      · intro hm
        have hm2 : c0 ∈ cs.reverse.takeWhile fun c => c != c0 := List.mem_reverse.mp hm
        have := List.mem_takeWhile_imp hm2
        simp at this
      · rw [← hbody]
        simp [List.reverse_cons]
  · rintro ⟨mid, post, hcs, hpost, hbody⟩
    subst hcs
    subst hbody
    have hrev : (mid ++ cl :: post).reverse = post.reverse ++ cl :: mid.reverse := by
      rw [List.reverse_append, List.reverse_cons, List.append_assoc]
      rfl
    rw [hrev]
    have hall : ∀ c ∈ post.reverse, (c != cl) = true := by
      intro c hc
      have : c ∈ post := List.mem_reverse.mp hc
      have hne : c ≠ cl := fun he => hpost (he ▸ this)
      simpa using hne
    have hhead : ∀ c t, cl :: mid.reverse = c :: t → (c != cl) = false := by
      intro c t h
      obtain ⟨rfl, -⟩ := List.cons.inj h
      simp
    obtain ⟨-, hdrop⟩ := takeWhile_append_all post.reverse (cl :: mid.reverse) hall hhead
    rw [hdrop]
    simp [List.reverse_cons]

theorem jsGreedyDelim_eq_some (o cl : Char) (cs m : List Char) :
    jsGreedyDelim o cl cs = some m ↔
      ∃ pre mid post, cs = pre ++ o :: (mid ++ cl :: post) ∧ o ∉ pre ∧ cl ∉ post ∧
        m = o :: (mid ++ [cl]) := by
  unfold jsGreedyDelim
  constructor
  · intro h
    cases hd : dropUntilChar o cs with
    | none =>
      rw [hd] at h
      simp at h
    | some suffix =>
      rw [hd] at h
      obtain ⟨pre, t, hcs, hpre, hsuf⟩ := (dropUntilChar_eq_some cs suffix).mp hd
      subst hsuf
      have h' : (match cutToLastChar cl t with
          | none => none
          | some body => some (o :: body)) = some m := h
      cases hc : cutToLastChar cl t with
      | none =>
        rw [hc] at h'
        simp at h'
      | some body =>
        rw [hc] at h'
        simp only [Option.some.injEq] at h'
        obtain ⟨mid, post, ht, hpost, hbody⟩ := (cutToLastChar_eq_some t body).mp hc
        exact ⟨pre, mid, post, by rw [hcs, ht], hpre, hpost, by rw [← h', hbody]⟩
  · rintro ⟨pre, mid, post, hcs, hpre, hpost, hm⟩
    have hd : dropUntilChar o cs = some (o :: (mid ++ cl :: post)) :=
      (dropUntilChar_eq_some _ _).mpr ⟨pre, _, hcs, hpre, rfl⟩
    rw [hd]
    have hc : cutToLastChar cl (mid ++ cl :: post) = some (mid ++ [cl]) :=
      (cutToLastChar_eq_some _ _).mpr ⟨mid, post, rfl, hpost, rfl⟩
    show (match cutToLastChar cl (mid ++ cl :: post) with
      | none => none
      | some body => some (o :: body)) = some m
    rw [hc, hm]

/-- C4: the AI-response parser of the older provider's `processScan`
matches the greedy regex `/\[[\s\S]*\]/` — the substring from the first
`[` to the last `]` — and JSON-parses that match; when the regex does
not match it JSON-parses the whole completion; when parsing throws it
stores, without throwing, the single placeholder problem with
`problemText "Unable to parse problems"` and `isCorrect = false`; and a
successful `processScan` persists exactly the extracted problems. -/
theorem claim_C4_extraction (jsonParse : String → Option (List MathProblem))
    (completion : String) :
    (∀ m : String, jsBracketMatch completion = some m ↔
      ∃ pre mid post, completion.data = pre ++ '[' :: (mid ++ ']' :: post) ∧
        '[' ∉ pre ∧ ']' ∉ post ∧ m.data = '[' :: (mid ++ [']'])) ∧
    ((∀ s, jsonParse s = none) →
      V1.extractProblems jsonParse completion = [V1.fallbackProblem] ∧
      V1.fallbackProblem.problemText = "Unable to parse problems" ∧
      V1.fallbackProblem.isCorrect = false) ∧
    (∀ m ps, jsBracketMatch completion = some m → jsonParse m = some ps →
      V1.extractProblems jsonParse completion = ps) ∧
    (jsBracketMatch completion = none →
      V1.extractProblems jsonParse completion =
        (match jsonParse completion with
          | some ps => ps
          | none => [V1.fallbackProblem])) ∧
    (∀ (env : V1.Env1) (uri : String) (scans : List Scan) (status : Nat)
        (errText : String) (b64 : String),
      uri ≠ "" → env.convertResult = .ok b64 →
      env.aiHttp = .reply true status errText (some completion) →
      ∃ scan, V1.processScan env uri scans = .ok (env.scanId, scan :: scans) ∧
        scan.problems = V1.extractProblems env.jsonParse completion) := by
  refine ⟨?_, ?_, ?_, ?_, ?_⟩
  · intro m
    unfold jsBracketMatch
    rw [Option.map_eq_some']
    constructor
    · rintro ⟨body, hg, hmk⟩
      obtain ⟨pre, mid, post, h1, h2, h3, h4⟩ :=
        (jsGreedyDelim_eq_some '[' ']' completion.data body).mp hg
      have hmd : body = m.data := by
        have := congrArg String.data hmk
        exact this
      exact ⟨pre, mid, post, h1, h2, h3, by rw [← hmd, h4]⟩
    · rintro ⟨pre, mid, post, h1, h2, h3, h4⟩
      refine ⟨'[' :: (mid ++ [']']), ?_, ?_⟩
      · exact (jsGreedyDelim_eq_some '[' ']' completion.data _).mpr
          ⟨pre, mid, post, h1, h2, h3, rfl⟩
      · rw [← h4, mk_data]
  · intro hall
    refine ⟨?_, rfl, rfl⟩
    unfold V1.extractProblems
    cases hm : jsBracketMatch completion with
    | none =>
      show (match jsonParse completion with
        | some ps => ps
        | none => [V1.fallbackProblem]) = _
      rw [hall]
    | some m =>
      show (match jsonParse m with
        | some ps => ps
        | none => [V1.fallbackProblem]) = _
      rw [hall]
  · intro m ps hm hp
    unfold V1.extractProblems
    rw [hm]
    show (match jsonParse m with
      | some found => found
      | none => [V1.fallbackProblem]) = ps
    rw [hp]
  · intro hm
    unfold V1.extractProblems
    rw [hm]
  · intro env uri scans status errText b64 huri hconv hai
    refine ⟨⟨env.scanId, env.timestamp, uri,
      V1.extractProblems env.jsonParse completion,
      some (V1.analyzeImageQuality env.parseQ env.qualityHttp)⟩, ?_, rfl⟩
    unfold V1.processScan
    rw [if_neg huri, hconv, hai]
    rfl

/-- Witness for C4: with a parser that always throws, a concrete
completion is stored as the placeholder problem. -/
theorem claim_C4_extraction_witness :
    V1.extractProblems (fun _ => none) "x[1]y" = [V1.fallbackProblem] ∧
    V1.fallbackProblem.problemText = "Unable to parse problems" ∧
    V1.fallbackProblem.isCorrect = false :=
  (claim_C4_extraction (fun _ => none) "x[1]y").2.1 fun _ => rfl

/-- Does an `Except` computation end in `.ok`? -/
def exceptIsOk {ε α : Type} : Except ε α → Bool
  | .ok _ => true
  | .error _ => false

/-- C10: `analyzeImageQuality` of the older provider never throws — on a
network error, a non-OK HTTP response, a completion without a brace
match, or an unparsable match it returns the default
`{ score: 50, issues: [] }`; the newer provider's version is the
constant `{ score: 75, issues: [] }`; and the quality outcome never
changes whether `processScan` succeeds. -/
theorem claim_C10_quality_total (parseQ : String → Option V1.QualityResult) :
    (∀ m, V1.analyzeImageQuality parseQ (.netError m) = ⟨50, []⟩) ∧
    (∀ c, V1.analyzeImageQuality parseQ (.reply false c) = ⟨50, []⟩) ∧
    (∀ c, jsBraceMatch c = none →
      V1.analyzeImageQuality parseQ (.reply true c) = ⟨50, []⟩) ∧
    (∀ c m, jsBraceMatch c = some m → parseQ m = none →
      V1.analyzeImageQuality parseQ (.reply true c) = ⟨50, []⟩) ∧
    (∀ b, V2.analyzeImageQuality b = ⟨75, []⟩) ∧
    (∀ (env : V1.Env1) (uri : String) (scans : List Scan)
        (q : V1.QualityHttp) (pq : String → Option V1.QualityResult),
      exceptIsOk (V1.processScan
          { env with qualityHttp := q, parseQ := pq } uri scans) =
        exceptIsOk (V1.processScan env uri scans)) := by
  refine ⟨fun m => rfl, fun c => rfl, ?_, ?_, fun b => rfl, ?_⟩
  · intro c hm
    simp [V1.analyzeImageQuality, hm]
  · intro c m hm hp
    simp [V1.analyzeImageQuality, hm, hp]
  · intro env uri scans q pq
    unfold V1.processScan
    by_cases huri : uri = ""
    · simp [huri]
    · simp only [if_neg huri]
      cases hc : env.convertResult with
      | error m => simp [exceptIsOk]
      | ok b =>
        cases ha : env.aiHttp with
        | netError m => simp [ha, exceptIsOk]
        | reply ok st et co => cases ok <;> simp [ha, exceptIsOk]

/-- Witness for C10: a completion with no brace match yields the default
quality. -/
theorem claim_C10_quality_total_witness :
    V1.analyzeImageQuality (fun _ => none) (.reply true "abc") = ⟨50, []⟩ :=
  (claim_C10_quality_total (fun _ => none)).2.2.1 "abc" rfl

set_option maxRecDepth 100000 in
/-- Witness for C7 at a concrete successful run. -/
theorem claim_C7_ai_values_witness :
    ∃ (k : Nat) (ps : List V2.AIProblem) (scan : Scan),
      V2.aiRace (sampleOkEnv k).aiDelay (sampleOkEnv k).aiOutcome = .ok ps ∧
      (V2.processScan sampleOkEnv "file:///a.jpg" ⟨none, none⟩ []).scans.head? = some scan ∧
      scan.problems = ps.map V2.toMathProblem ∧
      ∀ p ∈ ps, ∃ q ∈ scan.problems,
        q.problemText = p.problemText ∧ q.userAnswer = p.userAnswer ∧
        q.correctAnswer = p.correctAnswer ∧ q.isCorrect = p.isCorrect ∧
        q.explanation = p.explanation ∧ q.problemType = p.problemType ∧
        q.confidence = p.confidence ∧ q.steps = some (p.steps.getD []) ∧
        q.qualityIssues = some (p.qualityIssues.getD []) :=
  claim_C7_ai_values sampleOkEnv "file:///a.jpg" ⟨none, none⟩ [] "123" (by rfl)

end MathScan
